import Mathlib

/-!
Verification development for the subsquid-network P2P transport core.

The definitions below are a shallow embedding of the Rust sources:
* `transport/src/transport.rs` — the generic transport eventloop
  (`P2PTransport`), its gossipsub validation, the legacy `MessageCodec`
  framing, dialing, and connection bookkeeping;
* `transport/src/actors/worker.rs` — the worker role behavior
  (`WorkerBehaviour`).

Hash maps are embedded as association lists, the `VecDeque` of connections as
a `List` with the most recent element at the head, and byte streams as
`List Nat` (each element a byte value).  Wall-clock time (`timestamp_now`) and
swarm-internal outcomes (dial results, resolved addresses, Kademlia query
identifiers) are explicit parameters supplied by the environment.
-/

namespace Subsquid

/-- Peer identifier (opaque; embedded as `Nat`). -/
abbrev PeerId := Nat

/-- Connection identifier. -/
abbrev ConnId := Nat

/-- Kademlia query identifier. -/
abbrev QueryId := Nat

/-- Identifier of a dial-result oneshot sender (`DialResultSender`). -/
abbrev WaiterId := Nat

/-- Gossipsub topic hash.  `Sha256Topic::new(t).hash()` is embedded as the
identity on topic strings (a collision-free abstraction of SHA-256). -/
abbrev TopicHash := String

/-- `Sha256Topic::new(topic).hash()`. -/
def topicHash (topic : String) : TopicHash := topic

/-! ### Association-list operations (embedding of `HashMap`) -/

/-- Lookup in an association list (first matching key). -/
def alookup {K V : Type} [DecidableEq K] : List (K × V) → K → Option V
  | [], _ => none
  | (k', v) :: rest, k => if k' = k then some v else alookup rest k

/-- Remove a key, as `HashMap::remove` (removes every entry with the key;
lists built via `ainsert` have unique keys anyway). -/
def aerase {K V : Type} [DecidableEq K] : List (K × V) → K → List (K × V)
  | [], _ => []
  | (k', v) :: rest, k =>
    if k' = k then aerase rest k else (k', v) :: aerase rest k

/-- Insert-or-replace, as `HashMap::insert`. -/
def ainsert {K V : Type} [DecidableEq K] (l : List (K × V)) (k : K) (v : V) :
    List (K × V) :=
  (k, v) :: aerase l k

/-- Remove the first entry with the given key.  On unique-key lists (all maps
built via `ainsert` from the empty list) this agrees with `aerase`. -/
def aeraseF {K V : Type} [DecidableEq K] : List (K × V) → K → List (K × V)
  | [], _ => []
  | (k', v) :: rest, k => if k' = k then rest else (k', v) :: aeraseF rest k

@[simp] theorem alookup_nil {K V : Type} [DecidableEq K] (k : K) :
    alookup ([] : List (K × V)) k = none := rfl

@[simp] theorem alookup_cons {K V : Type} [DecidableEq K]
    (k' : K) (v : V) (rest : List (K × V)) (k : K) :
    alookup ((k', v) :: rest) k = if k' = k then some v else alookup rest k := rfl

theorem alookup_aerase {K V : Type} [DecidableEq K]
    (l : List (K × V)) (k k' : K) :
    alookup (aerase l k) k' = if k = k' then none else alookup l k' := by
  induction l with
  | nil => simp [aerase]
  | cons e rest ih =>
    obtain ⟨ek, ev⟩ := e
    by_cases he : ek = k
    · subst he
      by_cases hk : ek = k'
      · subst hk; simp [aerase, ih]
      · simp [aerase, hk, ih]
    · by_cases hk : ek = k'
      · subst hk
        have hkk : ¬ k = ek := fun h => he h.symm
        simp [aerase, he, hkk]
      · simp [aerase, he, hk, ih]

theorem alookup_ainsert {K V : Type} [DecidableEq K]
    (l : List (K × V)) (k k' : K) (v : V) :
    alookup (ainsert l k v) k' = if k = k' then some v else alookup l k' := by
  by_cases h : k = k'
  · simp [ainsert, h]
  · simp [ainsert, h, alookup_aerase]

/-! ### Legacy message codec (`MessageCodec` in transport.rs)

Requests are framed as an 8-byte big-endian length header followed by the
payload; the reader caps the payload read at 100 MiB and tolerates a mismatch
between the header and the bytes actually received. -/

/-- Read cap of `MessageCodec::read_request`: 100 MiB. -/
def MAX_READ_BYTES : Nat := 100 * 1024 * 1024

/-- `(n as u64).to_be_bytes()`: the 8 big-endian bytes of `n % 2^64`. -/
def toBeBytes8 (n : Nat) : List Nat :=
  [n / 2 ^ 56 % 256, n / 2 ^ 48 % 256, n / 2 ^ 40 % 256, n / 2 ^ 32 % 256,
   n / 2 ^ 24 % 256, n / 2 ^ 16 % 256, n / 2 ^ 8 % 256, n % 256]

/-- `u64::from_be_bytes`: big-endian byte list to a number. -/
def fromBeBytes8 (l : List Nat) : Nat :=
  l.foldl (fun acc b => acc * 256 + b) 0

/-- `MessageCodec::write_request`: 8-byte big-endian length header followed by
the payload bytes. -/
def write_request (payload : List Nat) : List Nat :=
  toBeBytes8 payload.length ++ payload

/-- `MessageCodec::read_request`: read the 8-byte header (fails if the stream
is shorter), then read the rest of the stream capped at 100 MiB.  Returns the
payload together with the mismatch-warning flag; a header/payload length
mismatch is only warned about, the payload is still delivered. -/
def read_request (frame : List Nat) : Option (List Nat × Bool) :=
  if frame.length < 8 then none
  else
    let msg_len := fromBeBytes8 (frame.take 8)
    let buf := (frame.drop 8).take MAX_READ_BYTES
    some (buf, buf.length ≠ msg_len)

theorem fromBeBytes8_toBeBytes8 (n : Nat) (h : n < 2 ^ 64) :
    fromBeBytes8 (toBeBytes8 n) = n := by
  simp only [toBeBytes8, fromBeBytes8, List.foldl]
  omega

/-! ### Transport data model (`P2PTransport` in transport.rs) -/

/-- A gossipsub message as seen by the validator (`gossipsub::Message`). -/
structure GossipMsg where
  source : Option PeerId
  topic : TopicHash
  sequence_number : Option Nat
  data : List Nat
deriving DecidableEq

/-- `Message<T>`: optional recipient, optional topic, opaque content. -/
structure Message where
  peer_id : Option PeerId
  topic : Option String
  content : List Nat
deriving DecidableEq

/-- `Subscription` command. -/
structure Subscription where
  topic : String
  subscribed : Bool
  allow_unordered : Bool
deriving DecidableEq

/-- `MAX_CONNS_PER_PEER` from transport.rs. -/
def MAX_CONNS_PER_PEER : Nat := 2

/-- The mutable state owned by the `P2PTransport` eventloop.  `HashMap`s are
association lists; `pending_dials` (`HashMap<PeerId, Vec<DialResultSender>>`)
is flattened to a list of (peer, waiter) pairs in insertion order;
`active_connections` keeps each peer's `VecDeque<ConnectionId>` as a list with
the most recent connection at the head. -/
structure TState where
  pending_dials : List (PeerId × WaiterId)
  ongoing_dials : List (ConnId × WaiterId)
  ongoing_queries : List (PeerId × QueryId)
  pending_messages : List (PeerId × List (List Nat))
  subscribed_topics : List (TopicHash × (String × Bool))
  sequence_numbers : List ((TopicHash × PeerId) × Nat)
  active_connections : List (PeerId × List ConnId)
deriving DecidableEq

/-- The freshly constructed transport state (`P2PTransport::new`). -/
def initState : TState :=
  { pending_dials := [], ongoing_dials := [], ongoing_queries := [],
    pending_messages := [], subscribed_topics := [], sequence_numbers := [],
    active_connections := [] }

/-- `PeerCondition` of a dial attempt. -/
inductive PeerCondition
  | disconnected
  | always
deriving DecidableEq

/-- The `DialOpts` built by `P2PTransport::dial_peer`. -/
structure DialOpts where
  peer : PeerId
  addrs : List Nat
  condition : PeerCondition
deriving DecidableEq

/-- Externally observable side effects issued by the eventloop handlers
(calls into the swarm / oneshot waiters / logging). -/
inductive Action
  | dialAttempt (opts : DialOpts)
  | resolve (w : WaiterId) (result : Bool)
  | startQuery (p : PeerId) (q : QueryId)
  | closeConnection (c : ConnId)
  | broadcast (topic : String) (data : List Nat)
  | sendRequest (p : PeerId) (data : List Nat)
  | gossipSubscribe (topic : String)
  | gossipUnsubscribe (topic : String)
  | logError
deriving DecidableEq

/-! ### Subscriptions (`subscribe` / `unsubscribe` / `handle_subscription`) -/

/-- `self.sequence_numbers.retain(|(t, _), _| t != &topic_hash)`. -/
def retainOtherTopics :
    List ((TopicHash × PeerId) × Nat) → TopicHash → List ((TopicHash × PeerId) × Nat)
  | [], _ => []
  | e :: rest, th =>
    if e.1.1 = th then retainOtherTopics rest th else e :: retainOtherTopics rest th

theorem alookup_retainOtherTopics (l : List ((TopicHash × PeerId) × Nat))
    (th : TopicHash) (key : TopicHash × PeerId) :
    alookup (retainOtherTopics l th) key =
      if key.1 = th then none else alookup l key := by
  induction l with
  | nil => simp [retainOtherTopics]
  | cons e rest ih =>
    obtain ⟨⟨et, ep⟩, ev⟩ := e
    by_cases he : et = th
    · by_cases hk : key.1 = th
      · simp [retainOtherTopics, he, hk, ih]
      · have hek : ¬ (th, ep) = key := fun h => hk (by rw [← h])
        simp [retainOtherTopics, he, hk, hek, ih]
    · by_cases hek : (et, ep) = key
      · subst hek
        simp [retainOtherTopics, he, ih]
      · simp [retainOtherTopics, he, hek, ih]

/-- `P2PTransport::subscribe`: insert the topic only if not yet subscribed
(the gossipsub `subscribe` call is the emitted action). -/
def subscribe (s : TState) (topic : String) (allow_unordered : Bool) :
    TState × List Action :=
  let th := topicHash topic
  match alookup s.subscribed_topics th with
  | some _ => (s, [])
  | none =>
    ({ s with subscribed_topics := ainsert s.subscribed_topics th (topic, allow_unordered) },
     [.gossipSubscribe topic])

/-- `P2PTransport::unsubscribe`: remove the topic from `subscribed_topics`
(unsubscribing from gossipsub if it was present) and drop every
`sequence_numbers` entry whose topic hash matches. -/
def unsubscribe (s : TState) (topic : String) : TState × List Action :=
  let th := topicHash topic
  let subsActs :
      List (TopicHash × (String × Bool)) × List Action :=
    match alookup s.subscribed_topics th with
    | some _ => (aerase s.subscribed_topics th, [Action.gossipUnsubscribe topic])
    | none => (s.subscribed_topics, [])
  ({ s with subscribed_topics := subsActs.1,
            sequence_numbers := retainOtherTopics s.sequence_numbers th },
   subsActs.2)

/-- `P2PTransport::handle_subscription`. -/
def handle_subscription (s : TState) (sub : Subscription) : TState × List Action :=
  if sub.subscribed then subscribe s sub.topic sub.allow_unordered
  else unsubscribe s sub.topic

/-! ### Gossipsub message validation (`validate_gossipsub_msg`,
`handle_gossipsub_event`) -/

/-- The last stored sequence number for (topic hash, source), defaulting to 0
(`.copied().unwrap_or_default()`). -/
def lastSeqNo (s : TState) (th : TopicHash) (src : PeerId) : Nat :=
  (alookup s.sequence_numbers (th, src)).getD 0

/-- `P2PTransport::validate_gossipsub_msg`: returns `(source, topic, data)` on
success and the state with the stored sequence number updated; on failure the
state is unchanged.  `now` is the value of `timestamp_now()`. -/
def validate_gossipsub_msg (s : TState) (msg : GossipMsg) (now : Nat) :
    Except String (PeerId × String × List Nat) × TState :=
  match msg.source with
  | none => (.error "anonymous message", s)
  | some source =>
    match alookup s.subscribed_topics msg.topic with
    | none => (.error "message with unknown topic", s)
    | some (topic, allow_unordered) =>
      if allow_unordered = false then
        let key := (msg.topic, source)
        let last_seq_no := lastSeqNo s msg.topic source
        match msg.sequence_number with
        | none => (.error "message with out sequence number", s)
        | some seq_no =>
          if now < seq_no then (.error "invalid sequence number", s)
          else if seq_no ≤ last_seq_no then (.error "old message", s)
          else (.ok (source, topic, msg.data),
                { s with sequence_numbers := ainsert s.sequence_numbers key seq_no })
      else (.ok (source, topic, msg.data), s)

/-- Validation verdict reported back to gossipsub. -/
inductive MessageAcceptance
  | Accept
  | Reject
deriving DecidableEq

/-- Result of `handle_gossipsub_event` on a received gossipsub message. -/
structure GossipOutcome where
  state : TState
  report : MessageAcceptance
  forwarded : Option Message
deriving DecidableEq

/-- `P2PTransport::handle_gossipsub_event` on a `gossipsub::Event::Message`:
validate, report `Accept`/`Reject` for propagation accounting, and on accept
try-send the message to the inbound channel (`forwarded`). -/
def handle_gossipsub_event (s : TState) (msg : GossipMsg) (now : Nat) :
    GossipOutcome :=
  match validate_gossipsub_msg s msg now with
  | (.ok (source, topic, data), s1) =>
    { state := s1, report := .Accept,
      forwarded := some { peer_id := some source, topic := some topic, content := data } }
  | (.error _, s1) => { state := s1, report := .Reject, forwarded := none }

/-! ### Dialing and peer lookup (`dial_peer`, `lookup_peer`, `peer_found`,
`peer_not_found`, connection handlers) -/

/-- Swarm-side data read by the handlers: the addresses `peer_addrs` resolves
for a peer and whether `swarm.is_connected` holds. -/
structure Env where
  peerAddrs : PeerId → List Nat
  connected : PeerId → Bool

/-- Outcome of a `swarm.dial` call, chosen by the environment. -/
inductive DialOutcome
  | conditionFalse
  | noAddresses
  | otherError
  | accepted
deriving DecidableEq

/-- Environment data consumed by one `swarm.dial` attempt: its outcome, the
`ConnectionId` minted for it, and the Kademlia `QueryId` a subsequent
`lookup_peer` would obtain. -/
structure DialChoice where
  outcome : DialOutcome
  connId : ConnId
  qid : QueryId
deriving DecidableEq

/-- `BiHashMap::contains_left` on `ongoing_queries`. -/
def containsLeft : List (PeerId × QueryId) → PeerId → Bool
  | [], _ => false
  | e :: rest, p => if e.1 = p then true else containsLeft rest p

/-- `BiHashMap::get_by_right` on `ongoing_queries`. -/
def lookupRight : List (PeerId × QueryId) → QueryId → Option PeerId
  | [], _ => none
  | e :: rest, q => if e.2 = q then some e.1 else lookupRight rest q

/-- `BiHashMap::remove_by_left`. -/
def removeLeft : List (PeerId × QueryId) → PeerId → List (PeerId × QueryId)
  | [], _ => []
  | e :: rest, p => if e.1 = p then removeLeft rest p else e :: removeLeft rest p

/-- `BiHashMap::remove_by_right`. -/
def removeRight : List (PeerId × QueryId) → QueryId → List (PeerId × QueryId)
  | [], _ => []
  | e :: rest, q => if e.2 = q then removeRight rest q else e :: removeRight rest q

/-- `BiHashMap::insert` (overwrites pairs sharing either key). -/
def insertBi (l : List (PeerId × QueryId)) (p : PeerId) (q : QueryId) :
    List (PeerId × QueryId) :=
  (p, q) :: removeRight (removeLeft l p) q

/-- `P2PTransport::lookup_peer`: start a `get_closest_peers` query unless one
for this peer is already ongoing. -/
def lookup_peer (s : TState) (p : PeerId) (qid : QueryId) : TState × List Action :=
  if containsLeft s.ongoing_queries p then (s, [])
  else ({ s with ongoing_queries := insertBi s.ongoing_queries p qid },
        [.startQuery p qid])

/-- `P2PTransport::dial_peer`: build `DialOpts` with
`condition = Disconnected` over the resolved addresses and dispatch on the
`swarm.dial` outcome. -/
def dial_peer (env : Env) (s : TState) (p : PeerId) (w : WaiterId)
    (ch : DialChoice) : TState × List Action :=
  let opts : DialOpts := { peer := p, addrs := env.peerAddrs p, condition := .disconnected }
  match ch.outcome with
  | .conditionFalse => (s, [.dialAttempt opts, .resolve w true])
  | .noAddresses =>
    let s1 := { s with pending_dials := s.pending_dials ++ [(p, w)] }
    let r := lookup_peer s1 p ch.qid
    (r.1, .dialAttempt opts :: r.2)
  | .otherError => (s, [.dialAttempt opts, .resolve w false])
  | .accepted =>
    ({ s with ongoing_dials := ainsert s.ongoing_dials ch.connId w },
     [.dialAttempt opts])

/-- `P2PTransport::can_send_msg`: connected, or some address known. -/
def can_send_msg (env : Env) (p : PeerId) : Bool :=
  env.connected p || !(env.peerAddrs p).isEmpty

/-- `P2PTransport::handle_outbound_msg`: topic present → broadcast; neither
topic nor recipient → error log; recipient reachable → send now; otherwise
buffer the content and look the peer up on the DHT. -/
def handle_outbound_msg (env : Env) (s : TState) (msg : Message) (qid : QueryId) :
    TState × List Action :=
  match msg.topic with
  | some topic => (s, [.broadcast topic msg.content])
  | none =>
    match msg.peer_id with
    | none => (s, [.logError])
    | some p =>
      if can_send_msg env p then (s, [.sendRequest p msg.content])
      else
        let pm := (alookup s.pending_messages p).getD [] ++ [msg.content]
        let s1 := { s with pending_messages := ainsert s.pending_messages p pm }
        lookup_peer s1 p qid

/-- `P2PTransport::send_pending_messages`: drain and send the buffered
messages for a peer. -/
def send_pending_messages (s : TState) (p : PeerId) : TState × List Action :=
  let msgs := (alookup s.pending_messages p).getD []
  ({ s with pending_messages := aerase s.pending_messages p },
   msgs.map (fun m => .sendRequest p m))

/-- The waiters queued in `pending_dials` for a peer, in insertion order. -/
def pendingFor : List (PeerId × WaiterId) → PeerId → List WaiterId
  | [], _ => []
  | e :: rest, p => if e.1 = p then e.2 :: pendingFor rest p else pendingFor rest p

/-- `pending_dials.remove(&peer)`: drop every waiter queued for the peer. -/
def dropPending : List (PeerId × WaiterId) → PeerId → List (PeerId × WaiterId)
  | [], _ => []
  | e :: rest, p => if e.1 = p then dropPending rest p else e :: dropPending rest p

/-- Re-dial a drained list of waiters (the loop body of `peer_found`); the
i-th re-dial consumes the environment choice `rd i`. -/
def redialAll (env : Env) :
    TState → PeerId → List WaiterId → (Nat → DialChoice) → TState × List Action
  | s, _, [], _ => (s, [])
  | s, p, w :: ws, rd =>
    let r1 := dial_peer env s p w (rd 0)
    let r2 := redialAll env r1.1 p ws (fun i => rd (i + 1))
    (r2.1, r1.2 ++ r2.2)

/-- `P2PTransport::peer_found`: re-dial every pending waiter for the peer,
then flush its buffered messages. -/
def peer_found (env : Env) (s : TState) (p : PeerId) (rd : Nat → DialChoice) :
    TState × List Action :=
  let ws := pendingFor s.pending_dials p
  let s1 := { s with pending_dials := dropPending s.pending_dials p }
  let r1 := redialAll env s1 p ws rd
  let r2 := send_pending_messages r1.1 p
  (r2.1, r1.2 ++ r2.2)

/-- `P2PTransport::peer_not_found`: resolve every pending waiter with `false`
and drop the buffered messages. -/
def peer_not_found (s : TState) (p : PeerId) : TState × List Action :=
  let ws := pendingFor s.pending_dials p
  ({ s with pending_dials := dropPending s.pending_dials p,
            pending_messages := aerase s.pending_messages p },
   ws.map (fun w => Action.resolve w false))

/-- `conns.retain(|cid| *cid != connection_id)`. -/
def removeConn : List ConnId → ConnId → List ConnId
  | [], _ => []
  | x :: rest, c => if x = c then removeConn rest c else x :: removeConn rest c

/-- `P2PTransport::handle_connection_established`: implicitly finish the
ongoing query, resolve the matching ongoing dial and all pending dials with
`true`, flush buffered messages, push the connection to the front of
`active_connections`, and if the per-peer count now exceeds
`MAX_CONNS_PER_PEER` request closing the oldest (back) connection — the entry
itself is only removed when the corresponding `ConnectionClosed` arrives. -/
def handle_connection_established (s : TState) (p : PeerId) (c : ConnId) :
    TState × List Action :=
  let s1 := { s with ongoing_queries := removeLeft s.ongoing_queries p }
  let r1 : TState × List Action :=
    match alookup s1.ongoing_dials c with
    | some w => ({ s1 with ongoing_dials := aeraseF s1.ongoing_dials c },
                 [.resolve w true])
    | none => (s1, [])
  let s2 := r1.1
  let ws := pendingFor s2.pending_dials p
  let s3 := { s2 with pending_dials := dropPending s2.pending_dials p }
  let a2 := ws.map (fun w => Action.resolve w true)
  let r3 := send_pending_messages s3 p
  let s4 := r3.1
  let conns := c :: (alookup s4.active_connections p).getD []
  let s5 := { s4 with active_connections := ainsert s4.active_connections p conns }
  if MAX_CONNS_PER_PEER < conns.length then
    (s5, r1.2 ++ a2 ++ r3.2 ++ [.closeConnection (conns.getLast?.getD 0)])
  else (s5, r1.2 ++ a2 ++ r3.2)

/-- `P2PTransport::handle_connection_closed`: drop the connection id from the
peer's `active_connections` entry (warn if the peer is unknown). -/
def handle_connection_closed (s : TState) (p : PeerId) (c : ConnId) :
    TState × List Action :=
  match alookup s.active_connections p with
  | some conns =>
    ({ s with active_connections :=
        ainsert s.active_connections p (removeConn conns c) }, [])
  | none => (s, [])

/-- `P2PTransport::handle_connection_failed`: resolve the matching ongoing
dial with `false`. -/
def handle_connection_failed (s : TState) (c : ConnId) : TState × List Action :=
  match alookup s.ongoing_dials c with
  | some w => ({ s with ongoing_dials := aeraseF s.ongoing_dials c },
               [.resolve w false])
  | none => (s, [])

/-- `P2PTransport::handle_kademlia_event` on a progressed `GetClosestPeers`
query: `found` abbreviates `peers.contains(&peer_id)`, `last` is the final
`ProgressStep`. -/
def handle_kademlia_progress (env : Env) (s : TState) (qid : QueryId)
    (found last : Bool) (rd : Nat → DialChoice) : TState × List Action :=
  match lookupRight s.ongoing_queries qid with
  | none => (s, [])
  | some p =>
    if found then
      peer_found env { s with ongoing_queries := removeRight s.ongoing_queries qid } p rd
    else if last then
      peer_not_found { s with ongoing_queries := removeRight s.ongoing_queries qid } p
    else (s, [])

/-- `P2PTransport::handle_identify_event` on `identify::Event::Received`:
counts as a successful resolution of an ongoing query for the peer (address
insertion into the external Kademlia book is not part of this state). -/
def handle_identify_received (env : Env) (s : TState) (p : PeerId)
    (rd : Nat → DialChoice) : TState × List Action :=
  if containsLeft s.ongoing_queries p then
    peer_found env { s with ongoing_queries := removeLeft s.ongoing_queries p } p rd
  else (s, [])

/-! ### The eventloop as a transition system -/

/-- One iteration input of the eventloop: a swarm event or a command, bundled
with the environment choices its handling consumes. -/
inductive DEvent
  | dialCmd (p : PeerId) (w : WaiterId) (ch : DialChoice)
  | outboundMsg (msg : Message) (qid : QueryId)
  | subCmd (sub : Subscription)
  | gossip (msg : GossipMsg) (now : Nat)
  | connEstablished (p : PeerId) (c : ConnId)
  | connClosed (p : PeerId) (c : ConnId)
  | connFailed (c : ConnId)
  | queryProgressed (qid : QueryId) (found : Bool) (last : Bool) (rd : Nat → DialChoice)
  | identifyReceived (p : PeerId) (rd : Nat → DialChoice)

/-- Dispatch of one eventloop iteration (the `tokio::select!` body plus
`handle_swarm_event`). -/
def step (env : Env) (s : TState) : DEvent → TState × List Action
  | .dialCmd p w ch => dial_peer env s p w ch
  | .outboundMsg msg qid => handle_outbound_msg env s msg qid
  | .subCmd sub => handle_subscription s sub
  | .gossip msg now => ((handle_gossipsub_event s msg now).state, [])
  | .connEstablished p c => handle_connection_established s p c
  | .connClosed p c => handle_connection_closed s p c
  | .connFailed c => handle_connection_failed s c
  | .queryProgressed qid found last rd => handle_kademlia_progress env s qid found last rd
  | .identifyReceived p rd => handle_identify_received env s p rd

/-- Run a list of eventloop iterations, accumulating the issued actions. -/
def runTrace (env : Env) : TState → List DEvent → TState × List Action
  | s, [] => (s, [])
  | s, e :: es =>
    let r1 := step env s e
    let r2 := runTrace env r1.1 es
    (r2.1, r1.2 ++ r2.2)

/-! ### Worker role behavior (`WorkerBehaviour` in actors/worker.rs) -/

/-- Response channel of a request/response server (opaque). -/
abbrev RespChan := Nat

/-- A `Pong` message payload (opaque). -/
abbrev Pong := Nat

/-- A `Query` request.  Modelled from the spec: the signature machinery of
`subsquid_messages::signatures::SignedMessage` is not under src/, so a query
carries the peer identity its signature verifies against ("signature verifies
against sender peer id"); `signer = none` stands for an invalid signature. -/
structure Query where
  query_id : Option String
  signer : Option PeerId
  body : List Nat
deriving DecidableEq

/-- Modelled from the spec: `Query::verify_signature(&peer_id)` — true exactly
when the query's signature verifies against the given peer id. -/
def verify_signature (q : Query) (p : PeerId) : Bool := q.signer = some p

/-- The state kept by `WorkerBehaviour` (configuration plus the per-query
de-duplication maps). -/
structure WorkerState where
  local_peer_id : String
  scheduler_id : PeerId
  logs_collector_id : PeerId
  query_senders : List (String × PeerId)
  query_response_channels : List (String × RespChan)
deriving DecidableEq

/-- `WorkerEvent` emitted to the worker's consumer. -/
inductive WorkerEvent
  | pong (request : Pong)
  | query (q : Query)
  | logsCollected (last_seq_no : Nat)
deriving DecidableEq

/-- Side effects issued by the worker behavior handlers. -/
inductive WAction
  | warn
  | blockPeer (p : PeerId)
  | sendPongResponse (rc : RespChan) (v : Nat)
deriving DecidableEq

/-- `WorkerBehaviour::on_query`: drop (with a warning) on invalid signature,
missing id, or duplicate id; otherwise remember the sender (and response
channel, when present) keyed by the query id and emit `WorkerEvent::Query`. -/
def on_query (w : WorkerState) (peer_id : PeerId) (q : Query)
    (resp_chan : Option RespChan) :
    WorkerState × Option WorkerEvent × List WAction :=
  if verify_signature q peer_id = false then (w, none, [.warn])
  else
    match q.query_id with
    | none => (w, none, [.warn])
    | some query_id =>
      match alookup w.query_senders query_id with
      | some _ => (w, none, [.warn])
      | none =>
        let w1 := { w with query_senders := ainsert w.query_senders query_id peer_id }
        let w2 :=
          match resp_chan with
          | some rc =>
            { w1 with query_response_channels :=
                ainsert w1.query_response_channels query_id rc }
          | none => w1
        (w2, some (.query q), [])

/-- `WorkerBehaviour::on_pong_event`: block the peer (with a warning) unless
it is the configured scheduler; otherwise acknowledge with `1` and emit
`WorkerEvent::Pong`. -/
def on_pong_event (w : WorkerState) (peer_id : PeerId) (request : Pong)
    (response_channel : RespChan) :
    WorkerState × Option WorkerEvent × List WAction :=
  if peer_id ≠ w.scheduler_id then (w, none, [.warn, .blockPeer peer_id])
  else (w, some (.pong request), [.sendPongResponse response_channel 1])

/-! ## Theorems -/

/-- C7: for every byte payload of length at most 100 MiB, framing with the
legacy codec's request writer (8-byte big-endian length header then payload)
and reading it back with the request reader yields the same payload (and no
mismatch warning). -/
theorem legacy_codec_round_trip (b : List Nat) (h : b.length ≤ MAX_READ_BYTES) :
    read_request (write_request b) = some (b, false) := by
  have h8 : (toBeBytes8 b.length).length = 8 := rfl
  have hlen : b.length < 2 ^ 64 := by
    have hm : MAX_READ_BYTES < 2 ^ 64 := by norm_num [MAX_READ_BYTES]
    omega
  have htake : (toBeBytes8 b.length ++ b).take 8 = toBeBytes8 b.length := by
    rw [← h8, List.take_left]
  have hdrop : (toBeBytes8 b.length ++ b).drop 8 = b := by
    rw [← h8, List.drop_left]
  have hcap : b.take MAX_READ_BYTES = b := List.take_of_length_le h
  have hcond : ¬ (toBeBytes8 b.length ++ b).length < 8 := by
    rw [List.length_append, h8]; omega
  have hge : 8 ≤ (toBeBytes8 b.length).length + b.length := by rw [h8]; omega
  simp [read_request, write_request, hcond, htake, hdrop, hcap,
    fromBeBytes8_toBeBytes8 b.length hlen, hge]

/-- Witness for C7 at the concrete payload `[7, 8, 9]`. -/
theorem legacy_codec_round_trip_witness :
    [7, 8, 9].length ≤ MAX_READ_BYTES
    ∧ read_request (write_request [7, 8, 9]) = some ([7, 8, 9], false) :=
  ⟨by decide, legacy_codec_round_trip [7, 8, 9] (by decide)⟩

/-- C8: a frame whose 8-byte big-endian header disagrees with the number of
payload bytes actually received (capped at 100 MiB) is not an error: the
reader still delivers the received payload, with the warning flag set. -/
theorem legacy_codec_mismatch_tolerated (frame : List Nat)
    (h8 : 8 ≤ frame.length)
    (hmm : ((frame.drop 8).take MAX_READ_BYTES).length ≠ fromBeBytes8 (frame.take 8)) :
    read_request frame = some ((frame.drop 8).take MAX_READ_BYTES, true) := by
  have hcond : ¬ frame.length < 8 := by omega
  have hmm' : ¬ MAX_READ_BYTES ⊓ (frame.length - 8) = fromBeBytes8 (frame.take 8) := by
    simpa using hmm
  simp [read_request, hcond, hmm']

/-- Witness for C8: header claims 5 bytes but only 3 arrive; the 3 bytes are
still delivered. -/
theorem legacy_codec_mismatch_tolerated_witness :
    8 ≤ (toBeBytes8 5 ++ [1, 2, 3]).length
    ∧ (((toBeBytes8 5 ++ [1, 2, 3]).drop 8).take MAX_READ_BYTES).length ≠
        fromBeBytes8 ((toBeBytes8 5 ++ [1, 2, 3]).take 8)
    ∧ read_request (toBeBytes8 5 ++ [1, 2, 3]) = some ([1, 2, 3], true) := by
  refine ⟨by decide, by decide, ?_⟩
  have h := legacy_codec_mismatch_tolerated (toBeBytes8 5 ++ [1, 2, 3])
    (by decide) (by decide)
  simpa using h

/-- C6: a Pong request from the configured scheduler is acknowledged with the
value 1 and emitted as `WorkerEvent::Pong`; from any other peer, the peer is
blocked, a warning is logged, and no event is emitted. -/
theorem pong_impersonation_check (w : WorkerState) (peer_id : PeerId)
    (request : Pong) (rc : RespChan) :
    (peer_id = w.scheduler_id →
      on_pong_event w peer_id request rc =
        (w, some (.pong request), [.sendPongResponse rc 1]))
    ∧ (peer_id ≠ w.scheduler_id →
      on_pong_event w peer_id request rc = (w, none, [.warn, .blockPeer peer_id])) := by
  constructor <;> intro h <;> simp [on_pong_event, h]

/-- Witness for C6 at a concrete worker state: scheduler 4 is accepted, peer
9 is blocked. -/
theorem pong_impersonation_check_witness :
    on_pong_event ⟨"w", 4, 6, [], []⟩ 4 11 3 =
      (⟨"w", 4, 6, [], []⟩, some (.pong 11), [.sendPongResponse 3 1])
    ∧ on_pong_event ⟨"w", 4, 6, [], []⟩ 9 11 3 =
      (⟨"w", 4, 6, [], []⟩, none, [.warn, .blockPeer 9]) :=
  ⟨(pong_impersonation_check ⟨"w", 4, 6, [], []⟩ 4 11 3).1 rfl,
   (pong_impersonation_check ⟨"w", 4, 6, [], []⟩ 9 11 3).2 (by decide)⟩

/-- C5: a Query request is accepted exactly when its signature verifies
against the sender, it carries a query id, and that id is unseen; then the
sender (and response channel, when present) is stored under the id and
`WorkerEvent::Query` is emitted.  Invalid signature, missing id, or duplicate
id drops the query with a warning, unchanged state, and no event. -/
theorem query_dedup_characterization (w : WorkerState) (peer_id : PeerId)
    (q : Query) (resp_chan : Option RespChan) :
    ((∃ qid, verify_signature q peer_id = true ∧ q.query_id = some qid ∧
        alookup w.query_senders qid = none) →
      ∃ qid, q.query_id = some qid ∧
        on_query w peer_id q resp_chan =
          ({ w with
              query_senders := ainsert w.query_senders qid peer_id,
              query_response_channels :=
                match resp_chan with
                | some rc => ainsert w.query_response_channels qid rc
                | none => w.query_response_channels },
           some (.query q), []))
    ∧ ((verify_signature q peer_id = false ∨ q.query_id = none ∨
        (∃ qid, q.query_id = some qid ∧ (alookup w.query_senders qid).isSome)) →
      on_query w peer_id q resp_chan = (w, none, [.warn])) := by
  constructor
  · rintro ⟨qid, hsig, hid, hnew⟩
    refine ⟨qid, hid, ?_⟩
    cases resp_chan <;> simp [on_query, hsig, hid, hnew]
  · rintro (hsig | hid | ⟨qid, hid, hdup⟩)
    · simp [on_query, hsig]
    · cases hsig : verify_signature q peer_id <;> simp [on_query, hsig, hid]
    · cases hl : alookup w.query_senders qid with
      | none => rw [hl] at hdup; simp at hdup
      | some p' =>
        cases hsig : verify_signature q peer_id <;>
          simp [on_query, hsig, hid, hl]

/-- Witness for C5: an accepted query with id `q-1`, then its duplicate is
dropped. -/
theorem query_dedup_characterization_witness :
    (∃ qid, verify_signature ⟨some "q-1", some 3, []⟩ 3 = true ∧
      (⟨some "q-1", some 3, []⟩ : Query).query_id = some qid ∧
      alookup (WorkerState.query_senders ⟨"w", 4, 6, [], []⟩) qid = none)
    ∧ (∃ qid, (⟨some "q-1", some 3, []⟩ : Query).query_id = some qid ∧
        on_query ⟨"w", 4, 6, [], []⟩ 3 ⟨some "q-1", some 3, []⟩ (some 9) =
          ({ (⟨"w", 4, 6, [], []⟩ : WorkerState) with
              query_senders := ainsert [] "q-1" 3,
              query_response_channels := ainsert [] "q-1" 9 },
           some (.query ⟨some "q-1", some 3, []⟩), []))
    ∧ on_query ⟨"w", 4, 6, [("q-1", 3)], []⟩ 3 ⟨some "q-1", some 3, []⟩ (some 9) =
        (⟨"w", 4, 6, [("q-1", 3)], []⟩, none, [.warn]) := by
  refine ⟨⟨"q-1", by decide, rfl, rfl⟩, ?_, ?_⟩
  · have h := (query_dedup_characterization ⟨"w", 4, 6, [], []⟩ 3
      ⟨some "q-1", some 3, []⟩ (some 9)).1 ⟨"q-1", by decide, rfl, rfl⟩
    simpa using h
  · have h := (query_dedup_characterization ⟨"w", 4, 6, [("q-1", 3)], []⟩ 3
      ⟨some "q-1", some 3, []⟩ (some 9)).2 (Or.inr (Or.inr ⟨"q-1", rfl, by decide⟩))
    simpa using h

/-- C9: an outbound message with a topic is broadcast via gossipsub even when
a recipient is also set; one with neither topic nor recipient is discarded
with an error log and no transport state change. -/
theorem outbound_topic_precedence (env : Env) (s : TState) (msg : Message)
    (qid : QueryId) :
    (∀ t, msg.topic = some t →
      handle_outbound_msg env s msg qid = (s, [.broadcast t msg.content]))
    ∧ (msg.topic = none → msg.peer_id = none →
      handle_outbound_msg env s msg qid = (s, [.logError])) := by
  constructor
  · intro t ht
    simp [handle_outbound_msg, ht]
  · intro ht hp
    simp [handle_outbound_msg, ht, hp]

/-- Witness for C9: a message carrying both topic and recipient broadcasts;
one carrying neither is discarded leaving the state unchanged. -/
theorem outbound_topic_precedence_witness :
    handle_outbound_msg ⟨fun _ => [], fun _ => false⟩ initState
      ⟨some 5, some "pings", [1]⟩ 0 = (initState, [.broadcast "pings" [1]])
    ∧ handle_outbound_msg ⟨fun _ => [], fun _ => false⟩ initState
      ⟨none, none, [1]⟩ 0 = (initState, [.logError]) :=
  ⟨(outbound_topic_precedence ⟨fun _ => [], fun _ => false⟩ initState
      ⟨some 5, some "pings", [1]⟩ 0).1 "pings" rfl,
   (outbound_topic_precedence ⟨fun _ => [], fun _ => false⟩ initState
      ⟨none, none, [1]⟩ 0).2 rfl rfl⟩

/-- C3: processing a dial command always attempts a dial built over the
resolved addresses with `condition = Disconnected`, and then: on
`NoAddresses` the waiter is queued into `pending_dials` and a DHT lookup for
the peer is ensured (started unless one is already ongoing) with no immediate
resolution; on `DialPeerConditionFalse` the waiter resolves `true`; on any
other error it resolves `false`; on success it is parked in `ongoing_dials`
under the new `ConnectionId`. -/
theorem dial_command_dispatch (env : Env) (s : TState) (p : PeerId)
    (w : WaiterId) (ch : DialChoice) :
    (dial_peer env s p w ch).2.head? =
      some (.dialAttempt { peer := p, addrs := env.peerAddrs p, condition := .disconnected })
    ∧ (ch.outcome = .noAddresses →
        (dial_peer env s p w ch).1.pending_dials = s.pending_dials ++ [(p, w)]
        ∧ (dial_peer env s p w ch).1.ongoing_dials = s.ongoing_dials
        ∧ (containsLeft s.ongoing_queries p = false →
            (dial_peer env s p w ch).1.ongoing_queries = insertBi s.ongoing_queries p ch.qid
            ∧ Action.startQuery p ch.qid ∈ (dial_peer env s p w ch).2)
        ∧ (containsLeft s.ongoing_queries p = true →
            (dial_peer env s p w ch).1.ongoing_queries = s.ongoing_queries)
        ∧ ∀ w' b, Action.resolve w' b ∉ (dial_peer env s p w ch).2)
    ∧ (ch.outcome = .conditionFalse →
        dial_peer env s p w ch =
          (s, [.dialAttempt ⟨p, env.peerAddrs p, .disconnected⟩, .resolve w true]))
    ∧ (ch.outcome = .otherError →
        dial_peer env s p w ch =
          (s, [.dialAttempt ⟨p, env.peerAddrs p, .disconnected⟩, .resolve w false]))
    ∧ (ch.outcome = .accepted →
        dial_peer env s p w ch =
          ({ s with ongoing_dials := ainsert s.ongoing_dials ch.connId w },
           [.dialAttempt ⟨p, env.peerAddrs p, .disconnected⟩])) := by
  obtain ⟨outcome, connId, qid⟩ := ch
  refine ⟨?_, ?_, ?_, ?_, ?_⟩
  · cases outcome
    · simp [dial_peer]
    · cases hq : containsLeft s.ongoing_queries p <;>
        simp [dial_peer, lookup_peer, hq]
    · simp [dial_peer]
    · simp [dial_peer]
  · intro ho
    cases outcome <;> simp_all [dial_peer, lookup_peer]
    cases hq : containsLeft s.ongoing_queries p <;> simp [hq]
  · intro ho; cases outcome <;> simp_all [dial_peer]
  · intro ho; cases outcome <;> simp_all [dial_peer]
  · intro ho; cases outcome <;> simp_all [dial_peer]

/-- Witness for C3: a `NoAddresses` outcome on the fresh state queues the
waiter and starts a lookup. -/
theorem dial_command_dispatch_witness :
    (DialChoice.mk .noAddresses 0 2).outcome = .noAddresses
    ∧ (dial_peer ⟨fun _ => [], fun _ => false⟩ initState 5 7
        ⟨.noAddresses, 0, 2⟩).1.pending_dials = [(5, 7)]
    ∧ Action.startQuery 5 2 ∈
        (dial_peer ⟨fun _ => [], fun _ => false⟩ initState 5 7 ⟨.noAddresses, 0, 2⟩).2 := by
  have h := (dial_command_dispatch ⟨fun _ => [], fun _ => false⟩ initState 5 7
    ⟨.noAddresses, 0, 2⟩).2.1 rfl
  exact ⟨rfl, by simpa using h.1, (h.2.2.1 rfl).2⟩

/-- The claim's rejection condition, stated in the spec's words: no source,
unknown topic, or — for topics requiring ordering — a missing sequence
number, one in the future, or one not strictly greater than the stored one. -/
def gossipRejectSpec (s : TState) (msg : GossipMsg) (now : Nat) : Prop :=
  msg.source = none ∨
  alookup s.subscribed_topics msg.topic = none ∨
  (∃ src topic, msg.source = some src ∧
    alookup s.subscribed_topics msg.topic = some (topic, false) ∧
    (msg.sequence_number = none ∨
      ∃ n, msg.sequence_number = some n ∧
        (now < n ∨ n ≤ lastSeqNo s msg.topic src)))

/-- C1: a received gossipsub message is reported `Reject` exactly under
`gossipRejectSpec`; on `Accept` the message is forwarded to the inbound
channel and, for ordering-required topics, the stored sequence number for
(topic hash, source) is updated to the message's sequence number, which is
strictly greater than the previously stored one and not greater than the
current wall-clock timestamp. -/
theorem gossip_validation_characterization (s : TState) (msg : GossipMsg)
    (now : Nat) :
    ((handle_gossipsub_event s msg now).report = .Reject ↔
      gossipRejectSpec s msg now)
    ∧ ((handle_gossipsub_event s msg now).report = .Accept →
      ∃ src topic allow_unordered,
        msg.source = some src ∧
        alookup s.subscribed_topics msg.topic = some (topic, allow_unordered) ∧
        (handle_gossipsub_event s msg now).forwarded =
          some { peer_id := some src, topic := some topic, content := msg.data } ∧
        (allow_unordered = true → (handle_gossipsub_event s msg now).state = s) ∧
        (allow_unordered = false →
          ∃ n, msg.sequence_number = some n ∧
            lastSeqNo s msg.topic src < n ∧ n ≤ now ∧
            (handle_gossipsub_event s msg now).state =
              { s with sequence_numbers :=
                  ainsert s.sequence_numbers (msg.topic, src) n })) := by
  obtain ⟨src?, tp, sq?, dt⟩ := msg
  cases src? with
  | none =>
    constructor
    · simp [handle_gossipsub_event, validate_gossipsub_msg, gossipRejectSpec]
    · simp [handle_gossipsub_event, validate_gossipsub_msg]
  | some src =>
    cases hsub : alookup s.subscribed_topics tp with
    | none =>
      constructor
      · simp [handle_gossipsub_event, validate_gossipsub_msg, gossipRejectSpec, hsub]
      · simp [handle_gossipsub_event, validate_gossipsub_msg, hsub]
    | some pr =>
      obtain ⟨topic, au⟩ := pr
      cases au with
      | true =>
        constructor
        · simp [handle_gossipsub_event, validate_gossipsub_msg, gossipRejectSpec, hsub]
        · intro _
          refine ⟨src, topic, true, rfl, rfl, ?_, ?_, ?_⟩
          · simp [handle_gossipsub_event, validate_gossipsub_msg, hsub]
          · intro _
            simp [handle_gossipsub_event, validate_gossipsub_msg, hsub]
          · intro hfalse; cases hfalse
      | false =>
        cases sq? with
        | none =>
          constructor
          · simp [handle_gossipsub_event, validate_gossipsub_msg,
              gossipRejectSpec, hsub]
          · simp [handle_gossipsub_event, validate_gossipsub_msg, hsub]
        | some n =>
          by_cases h1 : now < n
          · constructor
            · simp [handle_gossipsub_event, validate_gossipsub_msg,
                gossipRejectSpec, hsub, h1]
            · simp [handle_gossipsub_event, validate_gossipsub_msg, hsub, h1]
          · by_cases h2 : n ≤ lastSeqNo s tp src
            · constructor
              · simp [handle_gossipsub_event, validate_gossipsub_msg,
                  gossipRejectSpec, hsub, h1, h2]
              · simp [handle_gossipsub_event, validate_gossipsub_msg, hsub, h1, h2]
            · constructor
              · simp [handle_gossipsub_event, validate_gossipsub_msg,
                  gossipRejectSpec, hsub, h1, h2]
              · intro _
                refine ⟨src, topic, false, rfl, rfl, ?_, ?_, ?_⟩
                · simp [handle_gossipsub_event, validate_gossipsub_msg, hsub, h1, h2]
                · intro htrue; cases htrue
                · intro _
                  refine ⟨n, rfl, ?_, by omega, ?_⟩
                  · show lastSeqNo s tp src < n
                    omega
                  · simp [handle_gossipsub_event, validate_gossipsub_msg, hsub, h1, h2]

/-- Witness for C1 on concrete inputs: a fresh sequence number 10 for a
subscribed ordered topic is accepted, a replay of sequence number 10 is
rejected. -/
theorem gossip_validation_characterization_witness :
    (handle_gossipsub_event
        { initState with subscribed_topics := [("pings", ("pings", false))] }
        ⟨some 3, "pings", some 10, [1]⟩ 100).report = .Accept
    ∧ ((handle_gossipsub_event
        { initState with subscribed_topics := [("pings", ("pings", false))],
                         sequence_numbers := [(("pings", 3), 10)] }
        ⟨some 3, "pings", some 10, [1]⟩ 100).report = .Reject ↔
      gossipRejectSpec
        { initState with subscribed_topics := [("pings", ("pings", false))],
                         sequence_numbers := [(("pings", 3), 10)] }
        ⟨some 3, "pings", some 10, [1]⟩ 100) := by
  constructor
  · decide
  · exact (gossip_validation_characterization
      { initState with subscribed_topics := [("pings", ("pings", false))],
                       sequence_numbers := [(("pings", 3), 10)] }
      ⟨some 3, "pings", some 10, [1]⟩ 100).1

/-- C10: unsubscribing from a topic removes it from the subscribed-topics map
and deletes exactly the stored sequence numbers of that topic hash; after
re-subscribing, a message whose sequence number equals a previously accepted
one passes the ordering check and is accepted again. -/
theorem unsubscribe_clears_topic_state (s : TState) (T : String) (S : PeerId)
    (n now : Nat)
    (hstored : alookup s.sequence_numbers (topicHash T, S) = some n)
    (hpos : 0 < n) (hnow : n ≤ now) :
    alookup (unsubscribe s T).1.subscribed_topics (topicHash T) = none
    ∧ (∀ th src, th ≠ topicHash T →
        alookup (unsubscribe s T).1.sequence_numbers (th, src) =
          alookup s.sequence_numbers (th, src))
    ∧ (∀ src, alookup (unsubscribe s T).1.sequence_numbers (topicHash T, src) = none)
    ∧ (∀ data : List Nat,
        (handle_gossipsub_event ((subscribe (unsubscribe s T).1 T false).1)
          { source := some S, topic := topicHash T, sequence_number := some n,
            data := data } now).report = .Accept) := by
  have hsubs : alookup (unsubscribe s T).1.subscribed_topics (topicHash T) = none := by
    cases hl : alookup s.subscribed_topics (topicHash T) with
    | none => simp [unsubscribe, hl]
    | some v => simp [unsubscribe, hl, alookup_aerase]
  have hseq : (unsubscribe s T).1.sequence_numbers =
      retainOtherTopics s.sequence_numbers (topicHash T) := by
    cases hl : alookup s.subscribed_topics (topicHash T) with
    | none => simp [unsubscribe, hl]
    | some v => simp [unsubscribe, hl]
  refine ⟨hsubs, ?_, ?_, ?_⟩
  · intro th src hne
    rw [hseq, alookup_retainOtherTopics]
    simp [hne]
  · intro src
    rw [hseq, alookup_retainOtherTopics]
    simp
  · intro data
    have hsub2 : (subscribe (unsubscribe s T).1 T false).1.subscribed_topics =
        ainsert (unsubscribe s T).1.subscribed_topics (topicHash T) (T, false) := by
      simp [subscribe, hsubs]
    have hseq2 : (subscribe (unsubscribe s T).1 T false).1.sequence_numbers =
        retainOtherTopics s.sequence_numbers (topicHash T) := by
      cases hl : alookup (unsubscribe s T).1.subscribed_topics (topicHash T) with
    | none => simp [subscribe, hl, hseq]
    | some v => rw [hsubs] at hl; cases hl
    have hlook : alookup (subscribe (unsubscribe s T).1 T false).1.subscribed_topics
        (topicHash T) = some (T, false) := by
      rw [hsub2, alookup_ainsert]; simp
    have hlast : lastSeqNo ((subscribe (unsubscribe s T).1 T false).1)
        (topicHash T) S = 0 := by
      unfold lastSeqNo
      rw [hseq2, alookup_retainOtherTopics]
      simp
    have hn1 : ¬ now < n := by omega
    have hn2 : ¬ n ≤ lastSeqNo ((subscribe (unsubscribe s T).1 T false).1)
        (topicHash T) S := by
      rw [hlast]; omega
    simp [handle_gossipsub_event, validate_gossipsub_msg, hlook, hn1, hn2]

/-- Witness for C10 at a concrete state: topic `t` had stored sequence number
3 for source 5; after unsubscribe and re-subscribe the replayed sequence
number 3 is accepted. -/
theorem unsubscribe_clears_topic_state_witness :
    alookup
      (TState.sequence_numbers
        { initState with subscribed_topics := [("t", ("t", false))],
                         sequence_numbers := [(("t", 5), 3), (("u", 5), 9)] })
      (topicHash "t", 5) = some 3
    ∧ (∀ src, alookup
        (unsubscribe
          { initState with subscribed_topics := [("t", ("t", false))],
                           sequence_numbers := [(("t", 5), 3), (("u", 5), 9)] }
          "t").1.sequence_numbers (topicHash "t", src) = none)
    ∧ (∀ data : List Nat,
        (handle_gossipsub_event
          ((subscribe
            (unsubscribe
              { initState with subscribed_topics := [("t", ("t", false))],
                               sequence_numbers := [(("t", 5), 3), (("u", 5), 9)] }
              "t").1 "t" false).1)
          { source := some 5, topic := topicHash "t", sequence_number := some 3,
            data := data } 7).report = .Accept) := by
  have h := unsubscribe_clears_topic_state
    { initState with subscribed_topics := [("t", ("t", false))],
                     sequence_numbers := [(("t", 5), 3), (("u", 5), 9)] }
    "t" 5 3 7 (by decide) (by decide) (by decide)
  exact ⟨by decide, h.2.2.1, h.2.2.2⟩

/-! ### Connection-cap machinery (C2) -/

/-- The peer's current `active_connections` entry (most recent first). -/
def connsOf (s : TState) (p : PeerId) : List ConnId :=
  (alookup s.active_connections p).getD []

/-- Membership test in a connection list. -/
def connMem : List ConnId → ConnId → Bool
  | [], _ => false
  | x :: rest, c => if x = c then true else connMem rest c

/-- Whether a connection id occurs in any peer's entry. -/
def connInAny : List (PeerId × List ConnId) → ConnId → Bool
  | [], _ => false
  | e :: rest, c => if connMem e.2 c then true else connInAny rest c

/-- The first `closeConnection` request among the issued actions. -/
def closeRequested : List Action → Option ConnId
  | [] => none
  | .closeConnection c :: _ => some c
  | _ :: rest => closeRequested rest

/-- Prompt-close trace validity: every `ConnectionEstablished` carries a
connection id not currently in `active_connections`, and whenever its
handling requests closing the oldest connection, the matching
`ConnectionClosed` is processed as the very next event. -/
def promptOk (env : Env) : TState → List DEvent → Bool
  | _, [] => true
  | s, .connEstablished p c :: es =>
    if connInAny s.active_connections c then false
    else
      let r := step env s (.connEstablished p c)
      match closeRequested r.2 with
      | some c' =>
        match es with
        | .connClosed p' c'' :: es' =>
          if p' = p ∧ c'' = c' then
            promptOk env (step env r.1 (.connClosed p' c'')).1 es'
          else false
        | _ => false
      | none => promptOk env r.1 es
  | s, e :: es => promptOk env (step env s e).1 es

/-- The per-peer connection invariant of the claim: at most
`MAX_CONNS_PER_PEER` connections, pairwise distinct. -/
def ConnInv (s : TState) : Prop :=
  ∀ p : PeerId, (connsOf s p).length ≤ MAX_CONNS_PER_PEER ∧ (connsOf s p).Nodup

theorem lookup_peer_active (s : TState) (p : PeerId) (qid : QueryId) :
    (lookup_peer s p qid).1.active_connections = s.active_connections := by
  unfold lookup_peer; split <;> rfl

theorem dial_peer_active (env : Env) (s : TState) (p : PeerId) (w : WaiterId)
    (ch : DialChoice) :
    (dial_peer env s p w ch).1.active_connections = s.active_connections := by
  obtain ⟨o, cid, q⟩ := ch
  cases o <;> simp [dial_peer, lookup_peer_active]

theorem redialAll_active (env : Env) (ws : List WaiterId) :
    ∀ (s : TState) (p : PeerId) (rd : Nat → DialChoice),
      (redialAll env s p ws rd).1.active_connections = s.active_connections := by
  induction ws with
  | nil => intro s p rd; rfl
  | cons w ws ih => intro s p rd; simp [redialAll, ih, dial_peer_active]

theorem send_pending_messages_active (s : TState) (p : PeerId) :
    (send_pending_messages s p).1.active_connections = s.active_connections := rfl

theorem peer_found_active (env : Env) (s : TState) (p : PeerId)
    (rd : Nat → DialChoice) :
    (peer_found env s p rd).1.active_connections = s.active_connections := by
  simp [peer_found, send_pending_messages_active, redialAll_active]

theorem peer_not_found_active (s : TState) (p : PeerId) :
    (peer_not_found s p).1.active_connections = s.active_connections := rfl

theorem handle_outbound_msg_active (env : Env) (s : TState) (msg : Message)
    (qid : QueryId) :
    (handle_outbound_msg env s msg qid).1.active_connections = s.active_connections := by
  obtain ⟨p?, t?, ct⟩ := msg
  cases t? <;> cases p? <;> simp [handle_outbound_msg]
  split <;> simp [lookup_peer_active]

theorem handle_subscription_active (s : TState) (sub : Subscription) :
    (handle_subscription s sub).1.active_connections = s.active_connections := by
  unfold handle_subscription subscribe unsubscribe
  split
  · cases h : alookup s.subscribed_topics (topicHash sub.topic) <;> simp [h]
  · rfl

theorem validate_gossipsub_msg_active (s : TState) (msg : GossipMsg) (now : Nat) :
    (validate_gossipsub_msg s msg now).2.active_connections = s.active_connections := by
  unfold validate_gossipsub_msg
  obtain ⟨src?, tp, sq?, dt⟩ := msg
  cases src? with
  | none => rfl
  | some src =>
    cases h : alookup s.subscribed_topics tp with
    | none => rfl
    | some pr =>
      obtain ⟨topic, au⟩ := pr
      cases au with
      | true => rfl
      | false =>
        cases sq? with
        | none => rfl
        | some n =>
          by_cases h1 : now < n
          · simp [h1]
          · by_cases h2 : n ≤ lastSeqNo s tp src <;> simp [h1, h2]

theorem handle_gossipsub_event_active (s : TState) (msg : GossipMsg) (now : Nat) :
    (handle_gossipsub_event s msg now).state.active_connections = s.active_connections := by
  unfold handle_gossipsub_event
  have h := validate_gossipsub_msg_active s msg now
  split
  · next heq => rw [show (validate_gossipsub_msg s msg now).2 = _ from congrArg Prod.snd heq] at h; exact h
  · next heq => rw [show (validate_gossipsub_msg s msg now).2 = _ from congrArg Prod.snd heq] at h; exact h

theorem handle_connection_failed_active (s : TState) (c : ConnId) :
    (handle_connection_failed s c).1.active_connections = s.active_connections := by
  unfold handle_connection_failed; split <;> rfl

theorem handle_kademlia_progress_active (env : Env) (s : TState) (qid : QueryId)
    (found last : Bool) (rd : Nat → DialChoice) :
    (handle_kademlia_progress env s qid found last rd).1.active_connections =
      s.active_connections := by
  unfold handle_kademlia_progress
  split
  · rfl
  · split
    · rw [peer_found_active]
    · split
      · rw [peer_not_found_active]
      · rfl

theorem handle_identify_received_active (env : Env) (s : TState) (p : PeerId)
    (rd : Nat → DialChoice) :
    (handle_identify_received env s p rd).1.active_connections =
      s.active_connections := by
  unfold handle_identify_received
  split
  · rw [peer_found_active]
  · rfl

theorem established_active (s : TState) (p : PeerId) (c : ConnId) :
    (handle_connection_established s p c).1.active_connections =
      ainsert s.active_connections p (c :: connsOf s p) := by
  unfold handle_connection_established
  cases h : alookup s.ongoing_dials c <;>
    simp [h, send_pending_messages, connsOf] <;> split <;> simp

theorem closed_active (s : TState) (p : PeerId) (c : ConnId) :
    (handle_connection_closed s p c).1.active_connections =
      match alookup s.active_connections p with
      | some conns => ainsert s.active_connections p (removeConn conns c)
      | none => s.active_connections := by
  unfold handle_connection_closed
  cases h : alookup s.active_connections p <;> simp [h]

theorem closeRequested_cons_resolve (w : WaiterId) (b : Bool) (l : List Action) :
    closeRequested (.resolve w b :: l) = closeRequested l := rfl

theorem closeRequested_cons_send (p : PeerId) (m : List Nat) (l : List Action) :
    closeRequested (.sendRequest p m :: l) = closeRequested l := rfl

theorem closeRequested_map_resolve (ws : List WaiterId) (b : Bool) (l : List Action) :
    closeRequested (ws.map (fun w => Action.resolve w b) ++ l) = closeRequested l := by
  induction ws with
  | nil => rfl
  | cons w ws ih => simpa [closeRequested_cons_resolve] using ih

theorem closeRequested_map_send (p : PeerId) (ms : List (List Nat)) (l : List Action) :
    closeRequested (ms.map (fun m => Action.sendRequest p m) ++ l) = closeRequested l := by
  induction ms with
  | nil => rfl
  | cons m ms ih => simpa [closeRequested_cons_send] using ih

theorem closeRequested_map_send_only (p : PeerId) (ms : List (List Nat)) :
    closeRequested (ms.map (fun m => Action.sendRequest p m)) = none := by
  have h := closeRequested_map_send p ms []
  simpa using h

/-- `handle_connection_established` requests closing the oldest (back)
connection exactly when the new per-peer count exceeds the cap. -/
theorem established_close (s : TState) (p : PeerId) (c : ConnId) :
    closeRequested (handle_connection_established s p c).2 =
      if MAX_CONNS_PER_PEER < (c :: connsOf s p).length then
        some ((c :: connsOf s p).getLast?.getD 0)
      else none := by
  unfold handle_connection_established
  cases h : alookup s.ongoing_dials c <;>
    simp only [h, send_pending_messages, connsOf] <;>
    split <;>
    simp [List.append_assoc, closeRequested_cons_resolve,
      closeRequested_map_resolve, closeRequested_map_send,
      closeRequested_map_send_only, closeRequested]

theorem removeConn_subset (c a : ConnId) :
    ∀ l : List ConnId, a ∈ removeConn l c → a ∈ l := by
  intro l
  induction l with
  | nil => intro h; simpa [removeConn] using h
  | cons x rest ih =>
    intro h
    by_cases hx : x = c
    · rw [removeConn, if_pos hx] at h
      exact List.mem_cons_of_mem _ (ih h)
    · rw [removeConn, if_neg hx] at h
      rcases List.mem_cons.mp h with h | h
      · exact h ▸ List.mem_cons_self _ _
      · exact List.mem_cons_of_mem _ (ih h)

theorem removeConn_nodup (c : ConnId) :
    ∀ l : List ConnId, l.Nodup → (removeConn l c).Nodup := by
  intro l
  induction l with
  | nil => intro _; simp [removeConn]
  | cons x rest ih =>
    intro h
    rw [List.nodup_cons] at h
    by_cases hx : x = c
    · rw [removeConn, if_pos hx]
      exact ih h.2
    · rw [removeConn, if_neg hx, List.nodup_cons]
      exact ⟨fun hc => h.1 (removeConn_subset c x rest hc), ih h.2⟩

theorem removeConn_eq_of_not_mem (c : ConnId) :
    ∀ l : List ConnId, c ∉ l → removeConn l c = l := by
  intro l
  induction l with
  | nil => intro _; rfl
  | cons x rest ih =>
    intro h
    have hx : ¬ x = c := fun he => h (he ▸ List.mem_cons_self _ _)
    rw [removeConn, if_neg hx, ih (fun hc => h (List.mem_cons_of_mem _ hc))]

theorem removeConn_length (c : ConnId) :
    ∀ l : List ConnId, l.Nodup → c ∈ l → (removeConn l c).length + 1 = l.length := by
  intro l
  induction l with
  | nil => intro _ h; cases h
  | cons x rest ih =>
    intro hnd hm
    rw [List.nodup_cons] at hnd
    by_cases hx : x = c
    · rw [removeConn, if_pos hx,
        removeConn_eq_of_not_mem c rest (fun hc => hnd.1 (hx ▸ hc))]
      simp
    · rw [removeConn, if_neg hx]
      have hm' : c ∈ rest := by
        rcases List.mem_cons.mp hm with h | h
        · exact absurd h.symm hx
        · exact h
      have := ih hnd.2 hm'
      simp only [List.length_cons]
      omega

theorem getLastD_mem : ∀ l : List ConnId, l ≠ [] → l.getLast?.getD 0 ∈ l := by
  intro l
  induction l with
  | nil => intro h; exact absurd rfl h
  | cons x rest ih =>
    intro _
    cases rest with
    | nil => simp
    | cons y t =>
      rw [List.getLast?_cons_cons]
      exact List.mem_cons_of_mem _ (ih (by simp))

theorem connMem_false_iff (c : ConnId) :
    ∀ l : List ConnId, connMem l c = false ↔ c ∉ l := by
  intro l
  induction l with
  | nil => simp [connMem]
  | cons x rest ih =>
    by_cases hx : x = c
    · subst hx
      simp [connMem]
    · rw [connMem, if_neg hx, ih]
      constructor
      · intro h hc
        rcases List.mem_cons.mp hc with h' | h'
        · exact hx h'.symm
        · exact h h'
      · intro h hc
        exact h (List.mem_cons_of_mem _ hc)

theorem connInAny_false_lookup (c : ConnId) :
    ∀ A : List (PeerId × List ConnId), connInAny A c = false →
      ∀ p : PeerId, connMem ((alookup A p).getD []) c = false := by
  intro A
  induction A with
  | nil => intro _ p; rfl
  | cons e rest ih =>
    intro h p
    rw [connInAny] at h
    by_cases hm : connMem e.2 c = true
    · rw [if_pos hm] at h; cases h
    · rw [if_neg hm] at h
      obtain ⟨ek, ev⟩ := e
      by_cases hk : ek = p
      · simp only [alookup_cons, hk, if_pos rfl, Option.getD_some]
        exact Bool.not_eq_true _ ▸ (by simpa using hm)
      · simp only [alookup_cons, hk, if_neg hk]
        exact ih h p

theorem removeConn_length_le (c : ConnId) :
    ∀ l : List ConnId, (removeConn l c).length ≤ l.length := by
  intro l
  induction l with
  | nil => simp [removeConn]
  | cons x rest ih =>
    by_cases hx : x = c
    · rw [removeConn, if_pos hx]
      exact le_trans ih (by simp)
    · rw [removeConn, if_neg hx]
      simpa using ih

theorem connsOf_after_established (s : TState) (p : PeerId) (c : ConnId)
    (p' : PeerId) :
    connsOf (handle_connection_established s p c).1 p' =
      if p = p' then c :: connsOf s p else connsOf s p' := by
  rw [connsOf, established_active, alookup_ainsert]
  split <;> rfl

theorem connsOf_after_closed (s : TState) (p : PeerId) (c : ConnId) (p' : PeerId) :
    connsOf (handle_connection_closed s p c).1 p' =
      if p = p' then removeConn (connsOf s p) c else connsOf s p' := by
  rw [connsOf, closed_active]
  cases h : alookup s.active_connections p with
  | none =>
    by_cases hp : p = p'
    · subst hp
      simp [connsOf, h, removeConn]
    · simp [connsOf, hp]
  | some conns =>
    rw [alookup_ainsert]
    by_cases hp : p = p'
    · subst hp
      simp [connsOf, h]
    · simp [connsOf, hp]

theorem ConnInv_of_active_eq (s s' : TState)
    (h : s'.active_connections = s.active_connections) (hinv : ConnInv s) :
    ConnInv s' := by
  intro p
  rw [connsOf, h]
  exact hinv p

theorem conn_inv_init : ConnInv initState := by
  intro p
  simp [connsOf, initState]

theorem conn_inv_prompt (env : Env) :
    ∀ (k : Nat) (es : List DEvent) (s : TState), es.length ≤ k →
      ConnInv s → promptOk env s es = true →
      ConnInv (runTrace env s es).1 := by
  intro k
  induction k with
  | zero =>
    intro es s hlen hinv hok
    cases es with
    | nil => simpa [runTrace] using hinv
    | cons e es' => simp at hlen
  | succ k ih =>
    intro es s hlen hinv hok
    cases es with
    | nil => simpa [runTrace] using hinv
    | cons e es' =>
      have hlen' : es'.length ≤ k := by
        simp only [List.length_cons] at hlen; omega
      cases e with
      | connEstablished p c =>
        simp only [promptOk] at hok
        by_cases hfresh : connInAny s.active_connections c = true
        · rw [if_pos hfresh] at hok; cases hok
        · rw [if_neg hfresh] at hok
          have hfr : connInAny s.active_connections c = false := by
            cases hcc : connInAny s.active_connections c
            · rfl
            · exact absurd hcc hfresh
          have hnotmem : ∀ p', c ∉ connsOf s p' := by
            intro p'
            exact (connMem_false_iff c _).mp (connInAny_false_lookup c _ hfr p')
          cases hcr : closeRequested (step env s (.connEstablished p c)).2 with
          | none =>
            rw [hcr] at hok
            have hle : ¬ MAX_CONNS_PER_PEER < (c :: connsOf s p).length := by
              have hec := established_close s p c
              rw [show closeRequested (handle_connection_established s p c).2 =
                none from hcr] at hec
              by_contra hlt
              rw [if_pos hlt] at hec; cases hec
            have hinv1 : ConnInv (step env s (.connEstablished p c)).1 := by
              intro p'
              have hc1 := connsOf_after_established s p c p'
              rw [show (step env s (.connEstablished p c)).1 =
                (handle_connection_established s p c).1 from rfl, hc1]
              by_cases hp : p = p'
              · rw [if_pos hp]
                exact ⟨Nat.le_of_not_lt hle,
                  List.nodup_cons.mpr ⟨hnotmem p, (hinv p).2⟩⟩
              · rw [if_neg hp]; exact hinv p'
            exact ih es' _ hlen' hinv1 hok
          | some cOld =>
            rw [hcr] at hok
            have hlt : MAX_CONNS_PER_PEER < (c :: connsOf s p).length := by
              have hec := established_close s p c
              rw [show closeRequested (handle_connection_established s p c).2 =
                some cOld from hcr] at hec
              by_contra hnlt
              rw [if_neg hnlt] at hec; cases hec
            have hcold : cOld = (c :: connsOf s p).getLast?.getD 0 := by
              have hec := established_close s p c
              rw [show closeRequested (handle_connection_established s p c).2 =
                some cOld from hcr, if_pos hlt] at hec
              exact (Option.some.injEq _ _ ▸ hec :
                cOld = (c :: connsOf s p).getLast?.getD 0)
            have hmemOld : cOld ∈ c :: connsOf s p := by
              rw [hcold]
              exact getLastD_mem _ (by simp)
            have hnd1 : (c :: connsOf s p).Nodup :=
              List.nodup_cons.mpr ⟨hnotmem p, (hinv p).2⟩
            cases es' with
            | nil => cases hok
            | cons e2 es'' =>
              have hlen'' : es''.length ≤ k := by
                simp only [List.length_cons] at hlen'
                omega
              cases e2 with
              | dialCmd a b d => cases hok
              | outboundMsg a b => cases hok
              | subCmd a => cases hok
              | gossip a b => cases hok
              | connEstablished a b => cases hok
              | connFailed a => cases hok
              | queryProgressed a b d f => cases hok
              | identifyReceived a b => cases hok
              | connClosed p2 c2 =>
                dsimp only at hok
                by_cases hpc : p2 = p ∧ c2 = cOld
                · rw [if_pos hpc] at hok
                  obtain ⟨hp2, hc2⟩ := hpc
                  subst hp2; subst hc2
                  have hinv2 : ConnInv (step env
                      (step env s (.connEstablished p2 c)).1
                      (.connClosed p2 c2)).1 := by
                    intro p'
                    have hc2' := connsOf_after_closed
                      (step env s (.connEstablished p2 c)).1 p2 c2 p'
                    rw [show (step env (step env s (.connEstablished p2 c)).1
                      (.connClosed p2 c2)).1 =
                      (handle_connection_closed
                        (step env s (.connEstablished p2 c)).1 p2 c2).1 from rfl,
                      hc2']
                    have hc1 := connsOf_after_established s p2 c
                    by_cases hp : p2 = p'
                    · rw [if_pos hp]
                      have hl1 : connsOf (step env s (.connEstablished p2 c)).1 p2 =
                          c :: connsOf s p2 := by
                        rw [show (step env s (.connEstablished p2 c)).1 =
                          (handle_connection_established s p2 c).1 from rfl,
                          hc1 p2, if_pos rfl]
                      rw [hl1]
                      refine ⟨?_, removeConn_nodup c2 _ hnd1⟩
                      have hrl := removeConn_length c2 _ hnd1 hmemOld
                      have hb : (connsOf s p2).length ≤ MAX_CONNS_PER_PEER :=
                        (hinv p2).1
                      simp only [List.length_cons] at hrl ⊢
                      omega
                    · rw [if_neg hp]
                      have hl1 : connsOf (step env s (.connEstablished p2 c)).1 p' =
                          connsOf s p' := by
                        rw [show (step env s (.connEstablished p2 c)).1 =
                          (handle_connection_established s p2 c).1 from rfl,
                          hc1 p', if_neg hp]
                      rw [hl1]
                      exact hinv p'
                  exact ih es'' _ hlen'' hinv2 hok
                · rw [if_neg hpc] at hok; cases hok
      | connClosed p c =>
        simp only [promptOk] at hok
        have hinv1 : ConnInv (step env s (.connClosed p c)).1 := by
          intro p'
          have hc1 := connsOf_after_closed s p c p'
          rw [show (step env s (.connClosed p c)).1 =
            (handle_connection_closed s p c).1 from rfl, hc1]
          by_cases hp : p = p'
          · rw [if_pos hp]
            exact ⟨le_trans (removeConn_length_le c _) (hinv p).1,
              removeConn_nodup c _ (hinv p).2⟩
          · rw [if_neg hp]; exact hinv p'
        exact ih es' _ hlen' hinv1 hok
      | dialCmd p w ch =>
        simp only [promptOk] at hok
        exact ih es' _ hlen'
          (ConnInv_of_active_eq s _ (dial_peer_active env s p w ch) hinv) hok
      | outboundMsg msg qid =>
        simp only [promptOk] at hok
        exact ih es' _ hlen'
          (ConnInv_of_active_eq s _ (handle_outbound_msg_active env s msg qid) hinv) hok
      | subCmd sub =>
        simp only [promptOk] at hok
        exact ih es' _ hlen'
          (ConnInv_of_active_eq s _ (handle_subscription_active s sub) hinv) hok
      | gossip msg now =>
        simp only [promptOk] at hok
        exact ih es' _ hlen'
          (ConnInv_of_active_eq s _ (handle_gossipsub_event_active s msg now) hinv) hok
      | connFailed c =>
        simp only [promptOk] at hok
        exact ih es' _ hlen'
          (ConnInv_of_active_eq s _ (handle_connection_failed_active s c) hinv) hok
      | queryProgressed qid found last rd =>
        simp only [promptOk] at hok
        exact ih es' _ hlen'
          (ConnInv_of_active_eq s _
            (handle_kademlia_progress_active env s qid found last rd) hinv) hok
      | identifyReceived p rd =>
        simp only [promptOk] at hok
        exact ih es' _ hlen'
          (ConnInv_of_active_eq s _
            (handle_identify_received_active env s p rd) hinv) hok

/-- Counterexample to C2 as stated: after three `ConnectionEstablished`
events for peer 0 (connection ids 1, 2, 3) the `active_connections` entry
holds all three ids — the close of the oldest is only requested, the entry is
removed when `ConnectionClosed` is handled later — so at that instant the
entry exceeds `MAX_CONNS_PER_PEER`. -/
theorem conn_cap_counterexample :
    connsOf (runTrace ⟨fun _ => [], fun _ => false⟩ initState
      [.connEstablished 0 1, .connEstablished 0 2, .connEstablished 0 3]).1 0 =
      [3, 2, 1]
    ∧ ¬ (connsOf (runTrace ⟨fun _ => [], fun _ => false⟩ initState
      [.connEstablished 0 1, .connEstablished 0 2, .connEstablished 0 3]).1 0).length
        ≤ MAX_CONNS_PER_PEER := by
  constructor
  · rfl
  · decide

/-- C2 (amended): the `active_connections` entries are pairwise distinct and,
whenever a `ConnectionEstablished` pushes a peer's count beyond
`MAX_CONNS_PER_PEER` (= 2), closing the oldest (back) connection is
requested; the bound `|ActiveConnections[P]| ≤ 2` holds at every instant of
traces whose requested closes are processed (their `ConnectionClosed`
handled) before the next event — in between, the entry transiently holds
`MAX_CONNS_PER_PEER + 1` connections. -/
theorem conn_cap_amended (env : Env) :
    (∀ (s : TState) (p : PeerId) (c : ConnId),
      closeRequested (handle_connection_established s p c).2 =
        if MAX_CONNS_PER_PEER < (c :: connsOf s p).length then
          some ((c :: connsOf s p).getLast?.getD 0)
        else none)
    ∧ ∀ es : List DEvent, promptOk env initState es = true →
        ConnInv (runTrace env initState es).1 :=
  ⟨established_close,
   fun es hok => conn_inv_prompt env es.length es initState le_rfl conn_inv_init hok⟩

/-- Witness for C2 (amended) on the prompt version of the three-connection
scenario: the third establishment requests closing connection 1, the close is
processed next, and the invariant holds in the final state. -/
theorem conn_cap_amended_witness :
    promptOk ⟨fun _ => [], fun _ => false⟩ initState
      [.connEstablished 0 1, .connEstablished 0 2, .connEstablished 0 3,
       .connClosed 0 1] = true
    ∧ ConnInv (runTrace ⟨fun _ => [], fun _ => false⟩ initState
      [.connEstablished 0 1, .connEstablished 0 2, .connEstablished 0 3,
       .connClosed 0 1]).1 :=
  ⟨by decide,
   (conn_cap_amended ⟨fun _ => [], fun _ => false⟩).2
     [.connEstablished 0 1, .connEstablished 0 2, .connEstablished 0 3,
      .connClosed 0 1] (by decide)⟩

/-! ### Waiter accounting (C4) -/

/-- Occurrences of a waiter among second components. -/
def countSnd {α : Type} : List (α × WaiterId) → WaiterId → Nat
  | [], _ => 0
  | e :: rest, w => (if e.2 = w then 1 else 0) + countSnd rest w

/-- Occurrences of a waiter held by the transport state (in `pending_dials`
or `ongoing_dials`). -/
def occ (s : TState) (w : WaiterId) : Nat :=
  countSnd s.pending_dials w + countSnd s.ongoing_dials w

/-- Number of results delivered to a waiter among issued actions. -/
def resCount : List Action → WaiterId → Nat
  | [], _ => 0
  | .resolve w' _ :: rest, w => (if w' = w then 1 else 0) + resCount rest w
  | _ :: rest, w => resCount rest w

/-- Occurrences in a plain waiter list. -/
def countW : List WaiterId → WaiterId → Nat
  | [], _ => 0
  | x :: rest, w => (if x = w then 1 else 0) + countW rest w

/-- Number of times a trace injects the waiter via a dial command. -/
def injCount : List DEvent → WaiterId → Nat
  | [], _ => 0
  | .dialCmd _ w' _ :: rest, w => (if w' = w then 1 else 0) + injCount rest w
  | _ :: rest, w => injCount rest w

/-- Injection contributed by a single event. -/
def evInj : DEvent → WaiterId → Nat
  | .dialCmd _ w' _, w => if w' = w then 1 else 0
  | _, _ => 0

/-- A `swarm.dial` submission is fresh when its minted `ConnectionId` is not
already a key of `ongoing_dials` (always true in the real swarm, where
connection ids are unique). -/
def dialFresh (s : TState) (ch : DialChoice) : Bool :=
  match ch.outcome with
  | .accepted => (alookup s.ongoing_dials ch.connId).isNone
  | _ => true

/-- Freshness of each re-dial performed while draining a waiter list. -/
def redialFresh (env : Env) :
    TState → PeerId → List WaiterId → (Nat → DialChoice) → Bool
  | _, _, [], _ => true
  | s, p, w :: ws, rd =>
    dialFresh s (rd 0) &&
      redialFresh env (dial_peer env s p w (rd 0)).1 p ws (fun i => rd (i + 1))

/-- Freshness of the dial submissions an event's handling performs. -/
def evFresh (env : Env) (s : TState) : DEvent → Bool
  | .dialCmd _ _ ch => dialFresh s ch
  | .queryProgressed qid found _ rd =>
    (match lookupRight s.ongoing_queries qid with
     | none => true
     | some p =>
       if found then
         redialFresh env
           { s with ongoing_queries := removeRight s.ongoing_queries qid,
                    pending_dials := dropPending s.pending_dials p }
           p (pendingFor s.pending_dials p) rd
       else true)
  | .identifyReceived p rd =>
    if containsLeft s.ongoing_queries p then
      redialFresh env
        { s with ongoing_queries := removeLeft s.ongoing_queries p,
                 pending_dials := dropPending s.pending_dials p }
        p (pendingFor s.pending_dials p) rd
    else true
  | _ => true

/-- Freshness of every dial submission along a trace. -/
def traceFresh (env : Env) : TState → List DEvent → Bool
  | _, [] => true
  | s, e :: es => evFresh env s e && traceFresh env (step env s e).1 es

theorem countSnd_append {α : Type} (l1 l2 : List (α × WaiterId)) (w : WaiterId) :
    countSnd (l1 ++ l2) w = countSnd l1 w + countSnd l2 w := by
  induction l1 with
  | nil => simp [countSnd]
  | cons e rest ih => simp [countSnd, ih]; omega

theorem resCount_append (l1 l2 : List Action) (w : WaiterId) :
    resCount (l1 ++ l2) w = resCount l1 w + resCount l2 w := by
  induction l1 with
  | nil => simp [resCount]
  | cons a rest ih =>
    cases a <;> simp [resCount, ih] <;> omega

theorem resCount_map_resolve (ws : List WaiterId) (b : Bool) (w : WaiterId) :
    resCount (ws.map (fun x => Action.resolve x b)) w = countW ws w := by
  induction ws with
  | nil => rfl
  | cons x rest ih => simp [resCount, countW, ih]

theorem resCount_map_send (p : PeerId) (ms : List (List Nat)) (w : WaiterId) :
    resCount (ms.map (fun m => Action.sendRequest p m)) w = 0 := by
  induction ms with
  | nil => rfl
  | cons m rest ih => simpa [resCount] using ih

theorem countSnd_aeraseF {α : Type} [DecidableEq α]
    (l : List (α × WaiterId)) (k : α) (w : WaiterId) :
    countSnd (aeraseF l k) w +
      (match alookup l k with
       | some w' => if w' = w then 1 else 0
       | none => 0) = countSnd l w := by
  induction l with
  | nil => rfl
  | cons e rest ih =>
    obtain ⟨ek, ev⟩ := e
    by_cases hk : ek = k
    · subst hk
      simp [aeraseF, countSnd]
      omega
    · simp [aeraseF, countSnd, hk, ← ih]
      omega

theorem aerase_eq_of_alookup_none {K V : Type} [DecidableEq K]
    (l : List (K × V)) (k : K) (h : alookup l k = none) : aerase l k = l := by
  induction l with
  | nil => rfl
  | cons e rest ih =>
    obtain ⟨ek, ev⟩ := e
    by_cases hk : ek = k
    · rw [alookup_cons, if_pos hk] at h; cases h
    · rw [alookup_cons, if_neg hk] at h
      rw [aerase, if_neg hk, ih h]

theorem countSnd_aerase_le {α : Type} [DecidableEq α]
    (l : List (α × WaiterId)) (k : α) (w : WaiterId) :
    countSnd (aerase l k) w ≤ countSnd l w := by
  induction l with
  | nil => simp [aerase]
  | cons e rest ih =>
    obtain ⟨ek, ev⟩ := e
    by_cases hk : ek = k
    · rw [aerase, if_pos hk]
      exact le_trans ih (by simp [countSnd] <;> omega)
    · rw [aerase, if_neg hk]
      simp [countSnd] <;> omega

theorem countSnd_dropPending (l : List (PeerId × WaiterId)) (p : PeerId)
    (w : WaiterId) :
    countSnd (dropPending l p) w + countW (pendingFor l p) w = countSnd l w := by
  induction l with
  | nil => rfl
  | cons e rest ih =>
    obtain ⟨ep, ew⟩ := e
    by_cases hp : ep = p <;>
      simp [dropPending, pendingFor, hp, countSnd, countW] <;> omega

theorem lookup_peer_balance (s : TState) (p : PeerId) (qid : QueryId)
    (w : WaiterId) :
    occ (lookup_peer s p qid).1 w = occ s w
    ∧ resCount (lookup_peer s p qid).2 w = 0 := by
  unfold lookup_peer
  split <;> simp [occ, resCount]

theorem dial_peer_balance_le (env : Env) (s : TState) (p : PeerId)
    (w0 : WaiterId) (ch : DialChoice) (w : WaiterId) :
    occ (dial_peer env s p w0 ch).1 w + resCount (dial_peer env s p w0 ch).2 w ≤
      occ s w + (if w0 = w then 1 else 0) := by
  obtain ⟨o, cid, qid⟩ := ch
  cases o with
  | conditionFalse => simp [dial_peer, resCount]
  | otherError => simp [dial_peer, resCount]
  | noAddresses =>
    have hl := lookup_peer_balance
      { s with pending_dials := s.pending_dials ++ [(p, w0)] } p qid w
    simp only [dial_peer, resCount, hl.2]
    have h1 : occ (lookup_peer
        { s with pending_dials := s.pending_dials ++ [(p, w0)] } p qid).1 w =
        occ s w + (if w0 = w then 1 else 0) := by
      rw [hl.1]
      simp [occ, countSnd_append, countSnd]
      omega
    omega
  | accepted =>
    have hle := countSnd_aerase_le s.ongoing_dials cid w
    simp only [dial_peer, resCount, occ, ainsert, countSnd]
    omega

theorem dial_peer_balance_eq (env : Env) (s : TState) (p : PeerId)
    (w0 : WaiterId) (ch : DialChoice) (w : WaiterId)
    (h : dialFresh s ch = true) :
    occ (dial_peer env s p w0 ch).1 w + resCount (dial_peer env s p w0 ch).2 w =
      occ s w + (if w0 = w then 1 else 0) := by
  obtain ⟨o, cid, qid⟩ := ch
  cases o with
  | conditionFalse => simp [dial_peer, resCount]
  | otherError => simp [dial_peer, resCount]
  | noAddresses =>
    have hl := lookup_peer_balance
      { s with pending_dials := s.pending_dials ++ [(p, w0)] } p qid w
    simp only [dial_peer, resCount, hl.2]
    have h1 : occ (lookup_peer
        { s with pending_dials := s.pending_dials ++ [(p, w0)] } p qid).1 w =
        occ s w + (if w0 = w then 1 else 0) := by
      rw [hl.1]
      simp [occ, countSnd_append, countSnd]
      omega
    omega
  | accepted =>
    have hnone : alookup s.ongoing_dials cid = none := by
      simp only [dialFresh] at h
      exact Option.isNone_iff_eq_none.mp h
    simp only [dial_peer, resCount, occ, ainsert, countSnd,
      aerase_eq_of_alookup_none s.ongoing_dials cid hnone]
    omega

theorem redialAll_balance_le (env : Env) (ws : List WaiterId) :
    ∀ (s : TState) (p : PeerId) (rd : Nat → DialChoice) (w : WaiterId),
      occ (redialAll env s p ws rd).1 w + resCount (redialAll env s p ws rd).2 w ≤
        occ s w + countW ws w := by
  induction ws with
  | nil => intro s p rd w; simp [redialAll, resCount, countW]
  | cons w0 ws ih =>
    intro s p rd w
    have h1 := dial_peer_balance_le env s p w0 (rd 0) w
    have h2 := ih (dial_peer env s p w0 (rd 0)).1 p (fun i => rd (i + 1)) w
    simp only [redialAll, resCount_append, countW]
    omega

theorem redialAll_balance_eq (env : Env) (ws : List WaiterId) :
    ∀ (s : TState) (p : PeerId) (rd : Nat → DialChoice) (w : WaiterId),
      redialFresh env s p ws rd = true →
      occ (redialAll env s p ws rd).1 w + resCount (redialAll env s p ws rd).2 w =
        occ s w + countW ws w := by
  induction ws with
  | nil => intro s p rd w _; simp [redialAll, resCount, countW]
  | cons w0 ws ih =>
    intro s p rd w hf
    rw [redialFresh, Bool.and_eq_true] at hf
    have h1 := dial_peer_balance_eq env s p w0 (rd 0) w hf.1
    have h2 := ih (dial_peer env s p w0 (rd 0)).1 p (fun i => rd (i + 1)) w hf.2
    simp only [redialAll, resCount_append, countW]
    omega

theorem send_pending_messages_balance (s : TState) (p : PeerId) (w : WaiterId) :
    occ (send_pending_messages s p).1 w = occ s w
    ∧ resCount (send_pending_messages s p).2 w = 0 := by
  exact ⟨rfl, by simp [send_pending_messages, resCount_map_send]⟩

theorem peer_found_balance_le (env : Env) (s : TState) (p : PeerId)
    (rd : Nat → DialChoice) (w : WaiterId) :
    occ (peer_found env s p rd).1 w + resCount (peer_found env s p rd).2 w ≤
      occ s w := by
  have hdp := countSnd_dropPending s.pending_dials p w
  have hr := redialAll_balance_le env (pendingFor s.pending_dials p)
    { s with pending_dials := dropPending s.pending_dials p } p rd w
  have hsp := send_pending_messages_balance
    (redialAll env { s with pending_dials := dropPending s.pending_dials p } p
      (pendingFor s.pending_dials p) rd).1 p w
  simp only [peer_found, resCount_append, occ] at *
  omega

theorem peer_found_balance_eq (env : Env) (s : TState) (p : PeerId)
    (rd : Nat → DialChoice) (w : WaiterId)
    (h : redialFresh env { s with pending_dials := dropPending s.pending_dials p }
      p (pendingFor s.pending_dials p) rd = true) :
    occ (peer_found env s p rd).1 w + resCount (peer_found env s p rd).2 w =
      occ s w := by
  have hdp := countSnd_dropPending s.pending_dials p w
  have hr := redialAll_balance_eq env (pendingFor s.pending_dials p)
    { s with pending_dials := dropPending s.pending_dials p } p rd w h
  have hsp := send_pending_messages_balance
    (redialAll env { s with pending_dials := dropPending s.pending_dials p } p
      (pendingFor s.pending_dials p) rd).1 p w
  simp only [peer_found, resCount_append, occ] at *
  omega

theorem peer_not_found_balance (s : TState) (p : PeerId) (w : WaiterId) :
    occ (peer_not_found s p).1 w + resCount (peer_not_found s p).2 w = occ s w := by
  have hdp := countSnd_dropPending s.pending_dials p w
  simp only [peer_not_found, occ, resCount_map_resolve]
  omega

theorem established_balance (s : TState) (p : PeerId) (c : ConnId)
    (w : WaiterId) :
    occ (handle_connection_established s p c).1 w +
      resCount (handle_connection_established s p c).2 w = occ s w := by
  unfold handle_connection_established
  have hdp := countSnd_dropPending s.pending_dials p w
  cases h : alookup s.ongoing_dials c with
  | none =>
    simp only [h, send_pending_messages, occ]
    split <;>
      simp only [resCount_append, resCount_map_resolve, resCount_map_send,
        resCount, List.append_eq, List.nil_append, List.cons_append,
        List.singleton_append] <;>
      omega
  | some w' =>
    have hce := countSnd_aeraseF s.ongoing_dials c w
    rw [h] at hce
    dsimp only at hce
    simp only [h, send_pending_messages, occ]
    split <;>
      simp only [resCount_append, resCount_map_resolve, resCount_map_send,
        resCount, List.append_eq, List.nil_append, List.cons_append,
        List.singleton_append] <;>
      omega

theorem connection_failed_balance (s : TState) (c : ConnId) (w : WaiterId) :
    occ (handle_connection_failed s c).1 w +
      resCount (handle_connection_failed s c).2 w = occ s w := by
  unfold handle_connection_failed
  cases h : alookup s.ongoing_dials c with
  | none => simp [occ, resCount]
  | some w' =>
    have hce := countSnd_aeraseF s.ongoing_dials c w
    rw [h] at hce
    dsimp only at hce
    simp only [occ, resCount, countSnd]
    omega

theorem connection_closed_balance (s : TState) (p : PeerId) (c : ConnId)
    (w : WaiterId) :
    occ (handle_connection_closed s p c).1 w = occ s w
    ∧ resCount (handle_connection_closed s p c).2 w = 0 := by
  unfold handle_connection_closed
  cases h : alookup s.active_connections p <;> simp [occ, resCount]

theorem outbound_balance (env : Env) (s : TState) (msg : Message)
    (qid : QueryId) (w : WaiterId) :
    occ (handle_outbound_msg env s msg qid).1 w = occ s w
    ∧ resCount (handle_outbound_msg env s msg qid).2 w = 0 := by
  obtain ⟨p?, t?, ct⟩ := msg
  cases t? with
  | some t => simp [handle_outbound_msg, occ, resCount]
  | none =>
    cases p? with
    | none => simp [handle_outbound_msg, occ, resCount]
    | some p =>
      simp only [handle_outbound_msg]
      split
      · simp [occ, resCount]
      · constructor
        · exact (lookup_peer_balance _ p qid w).1
        · exact (lookup_peer_balance _ p qid w).2

theorem subscription_balance (s : TState) (sub : Subscription) (w : WaiterId) :
    occ (handle_subscription s sub).1 w = occ s w
    ∧ resCount (handle_subscription s sub).2 w = 0 := by
  unfold handle_subscription subscribe unsubscribe
  split <;>
    cases h : alookup s.subscribed_topics (topicHash sub.topic) <;>
    simp [h, occ, resCount]

theorem gossip_balance (s : TState) (msg : GossipMsg) (now : Nat) (w : WaiterId) :
    occ (handle_gossipsub_event s msg now).state w = occ s w := by
  unfold handle_gossipsub_event
  have hv : (validate_gossipsub_msg s msg now).2.pending_dials = s.pending_dials
      ∧ (validate_gossipsub_msg s msg now).2.ongoing_dials = s.ongoing_dials := by
    unfold validate_gossipsub_msg
    obtain ⟨src?, tp, sq?, dt⟩ := msg
    cases src? with
    | none => exact ⟨rfl, rfl⟩
    | some src =>
      cases h : alookup s.subscribed_topics tp with
      | none => exact ⟨rfl, rfl⟩
      | some pr =>
        obtain ⟨topic, au⟩ := pr
        cases au with
        | true => exact ⟨rfl, rfl⟩
        | false =>
          cases sq? with
          | none => exact ⟨rfl, rfl⟩
          | some n =>
            by_cases h1 : now < n
            · simp [h1]
            · by_cases h2 : n ≤ lastSeqNo s tp src <;> simp [h1, h2]
  split
  · next heq =>
    have h2 : (validate_gossipsub_msg s msg now).2 = _ := congrArg Prod.snd heq
    rw [occ, occ, ← hv.1, ← hv.2, h2]
  · next heq =>
    have h2 : (validate_gossipsub_msg s msg now).2 = _ := congrArg Prod.snd heq
    rw [occ, occ, ← hv.1, ← hv.2, h2]

theorem kademlia_balance_le (env : Env) (s : TState) (qid : QueryId)
    (found last : Bool) (rd : Nat → DialChoice) (w : WaiterId) :
    occ (handle_kademlia_progress env s qid found last rd).1 w +
      resCount (handle_kademlia_progress env s qid found last rd).2 w ≤
      occ s w := by
  unfold handle_kademlia_progress
  cases h : lookupRight s.ongoing_queries qid with
  | none => simp [h, occ, resCount]
  | some p =>
    simp only [h]
    by_cases hfound : found = true
    · rw [if_pos hfound]
      exact peer_found_balance_le env _ p rd w
    · rw [if_neg hfound]
      by_cases hlast : last = true
      · rw [if_pos hlast]
        exact le_of_eq (peer_not_found_balance _ p w)
      · rw [if_neg hlast]
        simp [occ, resCount]

theorem kademlia_balance_eq (env : Env) (s : TState) (qid : QueryId)
    (found last : Bool) (rd : Nat → DialChoice) (w : WaiterId)
    (hf : evFresh env s (.queryProgressed qid found last rd) = true) :
    occ (handle_kademlia_progress env s qid found last rd).1 w +
      resCount (handle_kademlia_progress env s qid found last rd).2 w =
      occ s w := by
  unfold handle_kademlia_progress
  simp only [evFresh] at hf
  cases h : lookupRight s.ongoing_queries qid with
  | none => simp [h, occ, resCount]
  | some p =>
    rw [h] at hf
    dsimp only at hf
    simp only [h]
    by_cases hfound : found = true
    · rw [if_pos hfound]
      rw [if_pos hfound] at hf
      exact peer_found_balance_eq env _ p rd w hf
    · rw [if_neg hfound]
      by_cases hlast : last = true
      · rw [if_pos hlast]
        exact peer_not_found_balance _ p w
      · rw [if_neg hlast]
        simp [occ, resCount]

theorem identify_balance_le (env : Env) (s : TState) (p : PeerId)
    (rd : Nat → DialChoice) (w : WaiterId) :
    occ (handle_identify_received env s p rd).1 w +
      resCount (handle_identify_received env s p rd).2 w ≤ occ s w := by
  unfold handle_identify_received
  split
  · exact peer_found_balance_le env _ p rd w
  · simp [occ, resCount]

theorem identify_balance_eq (env : Env) (s : TState) (p : PeerId)
    (rd : Nat → DialChoice) (w : WaiterId)
    (hf : evFresh env s (.identifyReceived p rd) = true) :
    occ (handle_identify_received env s p rd).1 w +
      resCount (handle_identify_received env s p rd).2 w = occ s w := by
  unfold handle_identify_received
  simp only [evFresh] at hf
  split
  · next hc =>
    rw [if_pos hc] at hf
    exact peer_found_balance_eq env _ p rd w hf
  · simp [occ, resCount]

theorem step_balance_le (env : Env) (s : TState) (e : DEvent) (w : WaiterId) :
    occ (step env s e).1 w + resCount (step env s e).2 w ≤ occ s w + evInj e w := by
  cases e with
  | dialCmd p w0 ch =>
    simpa [step, evInj] using dial_peer_balance_le env s p w0 ch w
  | outboundMsg msg qid =>
    have h := outbound_balance env s msg qid w
    simp [step, evInj, h.1, h.2]
  | subCmd sub =>
    have h := subscription_balance s sub w
    simp [step, evInj, h.1, h.2]
  | gossip msg now =>
    have h := gossip_balance s msg now w
    simp [step, evInj, h, resCount]
  | connEstablished p c =>
    simpa [step, evInj] using le_of_eq (established_balance s p c w)
  | connClosed p c =>
    have h := connection_closed_balance s p c w
    simp [step, evInj, h.1, h.2]
  | connFailed c =>
    simpa [step, evInj] using le_of_eq (connection_failed_balance s c w)
  | queryProgressed qid found last rd =>
    simpa [step, evInj] using kademlia_balance_le env s qid found last rd w
  | identifyReceived p rd =>
    simpa [step, evInj] using identify_balance_le env s p rd w

theorem step_balance_eq (env : Env) (s : TState) (e : DEvent) (w : WaiterId)
    (hf : evFresh env s e = true) :
    occ (step env s e).1 w + resCount (step env s e).2 w = occ s w + evInj e w := by
  cases e with
  | dialCmd p w0 ch =>
    simp only [evFresh] at hf
    simpa [step, evInj] using dial_peer_balance_eq env s p w0 ch w hf
  | outboundMsg msg qid =>
    have h := outbound_balance env s msg qid w
    simp [step, evInj, h.1, h.2]
  | subCmd sub =>
    have h := subscription_balance s sub w
    simp [step, evInj, h.1, h.2]
  | gossip msg now =>
    have h := gossip_balance s msg now w
    simp [step, evInj, h, resCount]
  | connEstablished p c =>
    simpa [step, evInj] using established_balance s p c w
  | connClosed p c =>
    have h := connection_closed_balance s p c w
    simp [step, evInj, h.1, h.2]
  | connFailed c =>
    simpa [step, evInj] using connection_failed_balance s c w
  | queryProgressed qid found last rd =>
    simpa [step, evInj] using kademlia_balance_eq env s qid found last rd w hf
  | identifyReceived p rd =>
    simpa [step, evInj] using identify_balance_eq env s p rd w hf

theorem runTrace_balance_le (env : Env) :
    ∀ (es : List DEvent) (s : TState) (w : WaiterId),
      occ (runTrace env s es).1 w + resCount (runTrace env s es).2 w ≤
        occ s w + injCount es w := by
  intro es
  induction es with
  | nil => intro s w; simp [runTrace, resCount, injCount]
  | cons e es ih =>
    intro s w
    have h1 := step_balance_le env s e w
    have h2 := ih (step env s e).1 w
    have hinj : injCount (e :: es) w = evInj e w + injCount es w := by
      cases e <;> simp [injCount, evInj]
    simp only [runTrace, resCount_append]
    omega

theorem runTrace_balance_eq (env : Env) :
    ∀ (es : List DEvent) (s : TState) (w : WaiterId),
      traceFresh env s es = true →
      occ (runTrace env s es).1 w + resCount (runTrace env s es).2 w =
        occ s w + injCount es w := by
  intro es
  induction es with
  | nil => intro s w _; simp [runTrace, resCount, injCount]
  | cons e es ih =>
    intro s w hf
    rw [traceFresh, Bool.and_eq_true] at hf
    have h1 := step_balance_eq env s e w hf.1
    have h2 := ih (step env s e).1 w hf.2
    have hinj : injCount (e :: es) w = evInj e w + injCount es w := by
      cases e <;> simp [injCount, evInj]
    simp only [runTrace, resCount_append]
    omega

/-- C4: along any eventloop trace that injects a given dial-result waiter
exactly once, at most one result is ever sent to it; and — when every dial
submission mints a fresh `ConnectionId` (as the real swarm does) — the waiter
is, at the end of the trace, either resolved exactly once (with `true` on
connection established or an already-connected dial, `false` on dial failure
or exhausted lookup, per the handler definitions) or still held in
`pending_dials`/`ongoing_dials`, to be cancelled by drop on shutdown. -/
theorem dial_waiter_resolution (env : Env) (es : List DEvent) (w : WaiterId)
    (hinj : injCount es w = 1) :
    resCount (runTrace env initState es).2 w ≤ 1
    ∧ (traceFresh env initState es = true →
        occ (runTrace env initState es).1 w +
          resCount (runTrace env initState es).2 w = 1) := by
  have h0 : occ initState w = 0 := rfl
  constructor
  · have h := runTrace_balance_le env es initState w
    omega
  · intro hf
    have h := runTrace_balance_eq env es initState w hf
    omega

/-- Witness for C4: one dial command whose submission succeeds, then its
connection is established — the waiter receives exactly one result. -/
theorem dial_waiter_resolution_witness :
    injCount [.dialCmd 0 7 ⟨.accepted, 5, 0⟩, .connEstablished 0 5] 7 = 1
    ∧ traceFresh ⟨fun _ => [], fun _ => false⟩ initState
        [.dialCmd 0 7 ⟨.accepted, 5, 0⟩, .connEstablished 0 5] = true
    ∧ resCount (runTrace ⟨fun _ => [], fun _ => false⟩ initState
        [.dialCmd 0 7 ⟨.accepted, 5, 0⟩, .connEstablished 0 5]).2 7 ≤ 1
    ∧ occ (runTrace ⟨fun _ => [], fun _ => false⟩ initState
        [.dialCmd 0 7 ⟨.accepted, 5, 0⟩, .connEstablished 0 5]).1 7 +
      resCount (runTrace ⟨fun _ => [], fun _ => false⟩ initState
        [.dialCmd 0 7 ⟨.accepted, 5, 0⟩, .connEstablished 0 5]).2 7 = 1 := by
  refine ⟨by decide, by decide, ?_, ?_⟩
  · exact (dial_waiter_resolution ⟨fun _ => [], fun _ => false⟩
      [.dialCmd 0 7 ⟨.accepted, 5, 0⟩, .connEstablished 0 5] 7 (by decide)).1
  · exact (dial_waiter_resolution ⟨fun _ => [], fun _ => false⟩
      [.dialCmd 0 7 ⟨.accepted, 5, 0⟩, .connEstablished 0 5] 7 (by decide)).2
      (by decide)

end Subsquid
